import Mathlib

/-!
Verification of the go-org parser core: a shallow embedding of the
tokenizer, the block-parser driver, the inline parser and the error
collector, together with theorems settling the specification claims.

Go strings are modelled as lists of characters (`Str`); byte indices of
ASCII inputs coincide with character indices.  Go slices that may be
`nil` are modelled as `Option (List _)`.  Go `int` fields that can hold
negative values (`lvl`, `MaxEmphasisNewLines`, outline `count`) are
modelled as `Int`; indices and consumption counts, which are never
negative in the source, are modelled as `Nat`.  Functions of the
repository that are not part of the sources under verification
(the individual line matchers, the block sub-parsers, the headline
exclusion test) are taken as parameters or modelled from the spec, as
noted at each definition.
-/

namespace GoOrg

/-- Go strings, modelled as lists of characters. -/
abbrev Str := List Char

/-- Convert a Lean string literal to the model representation. -/
def str (s : String) : Str := s.toList

/-- Go `unicode.IsSpace`: the Unicode White_Space property. -/
def isUniSpace (c : Char) : Bool :=
  c = ' ' || c = '\t' || c = '\n' || c = '\x0b' || c = '\x0c' || c = '\r' ||
  c.toNat = 0x85 || c.toNat = 0xA0 || c.toNat = 0x1680 ||
  (0x2000 ≤ c.toNat && c.toNat ≤ 0x200A) ||
  c.toNat = 0x2028 || c.toNat = 0x2029 || c.toNat = 0x202F ||
  c.toNat = 0x205F || c.toNat = 0x3000

/-- The RE2 character class `\s`, i.e. `[\t\n\f\r ]`. -/
def isRegexSpace (c : Char) : Bool :=
  c = ' ' || c = '\t' || c = '\n' || c = '\x0c' || c = '\r'

/-- The RE2 character class `\w`, i.e. `[0-9A-Za-z_]`. -/
def isWordChar (c : Char) : Bool :=
  c.isAlpha || c.isDigit || c = '_'

/-- Go `unicode.IsLetter`, restricted to the ASCII range (all inputs of
the claims are ASCII; non-ASCII letters are not modelled). -/
def isGoLetter (c : Char) : Bool := c.isAlpha

/-- Model of `Position` (doc.go): the location of a node in the source text. -/
structure Position where
  startLine : Nat
  startColumn : Nat
  endLine : Nat
  endColumn : Nat
deriving Repr, DecidableEq

instance : Inhabited Position := ⟨⟨0, 0, 0, 0⟩⟩

/-- Model of `token` (doc.go): one classified source line. -/
structure Token where
  kind : String
  lvl : Int
  content : Str
  submatches : List Str
  line : Nat
  startCol : Nat
  endCol : Nat
deriving Repr, DecidableEq

/-- Model of `nilToken` (doc.go). -/
def nilToken : Token :=
  { kind := "nil", lvl := -1, content := [], submatches := [],
    line := 0, startCol := 0, endCol := 0 }

/-- The zero value `token{}` of Go. -/
def zeroToken : Token :=
  { kind := "", lvl := 0, content := [], submatches := [],
    line := 0, startCol := 0, endCol := 0 }

/-- Model of `ErrorType` (error.go). -/
inductive ErrorType where
  | invalidSyntax
  | unexpectedToken
  | invalidStructure
  | duplicateNode
  | missingNode
  | validation
  | tokenization
  | ioErr
deriving Repr, DecidableEq

/-- Model of `ParseError` (error.go); the `Cause error` field is modelled by its
message string. -/
structure ParseError where
  typ : ErrorType
  message : String
  file : String
  startLine : Nat
  endLine : Nat
  startCol : Nat
  endCol : Nat
  tok : Token
  context : String
  cause : Option String
deriving Repr, DecidableEq

/-- Model of `ListKind` (list.go). -/
inductive ListKind where
  | unordered
  | ordered
  | descriptive
deriving Repr, DecidableEq

mutual
/-- Model of `FootnoteDefinition` (footnote.go). -/
inductive FootnoteDef where
  | mk (name : Str) (children : List Node) (inline : Bool) (pos : Position) : FootnoteDef

/-- The closed union of the node variants of the source that the claims
reach.  `Timestamp.Time` is modelled by the matched date/time strings.
Go appends possibly-nil `Node` interface values to list-item children,
hence `Option Node` there. -/
inductive Node where
  | text (content : Str) (isRaw : Bool) (pos : Position) : Node
  | lineBreak (count : Nat) (betweenMultibyteCharacters : Bool) (pos : Position) : Node
  | explicitLineBreak (pos : Position) : Node
  | statisticToken (content : Str) (pos : Position) : Node
  | timestamp (date : Str) (hhmm : Str) (isDate : Bool) (interval : Str) (pos : Position) : Node
  | emphasis (kind : Str) (content : List Node) (pos : Position) : Node
  | inlineBlock (name : String) (parameters : List Str) (children : List Node) (pos : Position) : Node
  | latexFragment (openingPair : Str) (closingPair : Str) (content : List Node) (pos : Position) : Node
  | footnoteLink (name : Str) (definition : Option FootnoteDef) (pos : Position) : Node
  | regularLink (protocol : Str) (description : Option (List Node)) (url : Str) (autoLink : Bool) (pos : Position) : Node
  | orgMacro (name : Str) (parameters : List Str) (pos : Position) : Node
  | paragraph (children : List Node) (pos : Position) : Node
  | orgList (kind : ListKind) (items : List Node) (pos : Position) : Node
  | listItem (bullet : Str) (status : Str) (value : Str) (children : List (Option Node)) (pos : Position) : Node
  | descriptiveListItem (bullet : Str) (status : Str) (term : List Node) (details : List (Option Node)) (pos : Position) : Node
end

deriving instance Repr for FootnoteDef, Node

/-- Modelled from the spec: the headline fields the outline builder
needs (`Headline` lives in headline.go, outside the sources under
verification) — its level and its tags. -/
structure HeadlineM where
  lvl : Int
  tags : List String
deriving Repr, DecidableEq

/-- A section of the outline arena: the wrapped headline (none for the
root) and the indices of its child sections.  Modelled from the spec:
the `Section` tree (`Outline`, headline.go) is represented as an index
arena so that Go's pointer graph becomes explicit. -/
structure SectionM where
  headline : Option HeadlineM
  childIdxs : List Nat
deriving Repr, DecidableEq

/-- Model of `Outline` (headline.go), modelled from the spec as an arena:
index 0 is the root section, `lastIdx` is the insertion cursor and
`count` the visible-headline counter. -/
structure OutlineM where
  nodes : List SectionM
  lastIdx : Nat
  count : Int
deriving Repr, DecidableEq

/-- The initial outline of `Parse`: `Outline{outlineSection, outlineSection, 0}`. -/
def initOutline : OutlineM := ⟨[⟨none, []⟩], 0, 0⟩



/-- Model of `Document` (doc.go) with the fields of its embedded `Configuration`
that the core reads.  `tokens` and `Nodes` are nilable Go slices, hence
`Option`; `ResolveLink` is the injected link resolver. -/
structure Document where
  autoLink : Bool
  maxEmphasisNewLines : Int
  defaultSettings : List (String × String)
  resolveLink : Str → Option (List Node) → Str → Node
  path : String
  tokens : Option (List Token)
  baseLvl : Int
  nodes : Option (List Node)
  outline : OutlineM
  bufferSettings : List (String × String)
  errors : List ParseError
  fatalError : Option ParseError
  pos : Position

/-- The token buffer as a plain list (empty when still nil). -/
def Document.toks (d : Document) : List Token := d.tokens.getD []

/-- Number of buffered tokens. -/
def Document.tokCount (d : Document) : Nat := d.toks.length

/-- Read of `d.tokens[i]`; out-of-range reads yield `nilToken` (Go would panic,
but every read in the source is guarded in range). -/
def Document.tok (d : Document) (i : Nat) : Token := d.toks.getD i nilToken

/-- In-place update `d.tokens[i] = t`. -/
def Document.setTok (d : Document) (i : Nat) (t : Token) : Document :=
  { d with tokens := some (d.toks.set i t) }

/-- Model of `getPositionFromToken` (error.go). -/
def getPositionFromToken (tok : Token) : Position :=
  { startLine := tok.line, startColumn := tok.startCol,
    endLine := tok.line, endColumn := tok.endCol }

/-- Model of `NewParseError` (error.go). -/
def newParseError (typ : ErrorType) (message : String) (file : String)
    (pos : Position) (tok : Token) (cause : Option String) : ParseError :=
  { typ := typ, message := message, file := file,
    startLine := pos.startLine, endLine := pos.endLine,
    startCol := pos.startColumn, endCol := pos.endColumn,
    tok := tok, context := "", cause := cause }

/-- Model of `Document.AddError` (error.go): append a diagnostic. -/
def Document.addError (d : Document) (typ : ErrorType) (message : String)
    (pos : Position) (tok : Token) (cause : Option String) : Document :=
  { d with errors := d.errors ++ [newParseError typ message d.path pos tok cause] }

/-- Model of `Document.HasErrors` (error.go). -/
def Document.hasErrors (d : Document) : Bool := d.errors.length > 0

/-- Model of `Document.HasFatalError` (error.go). -/
def Document.hasFatalError (d : Document) : Bool := d.fatalError.isSome

/-- Model of `Document.AddFatalError` (error.go): set the fatal slot and also
append to the error list. -/
def Document.addFatalError (d : Document) (typ : ErrorType) (message : String)
    (pos : Position) (tok : Token) (cause : Option String) : Document :=
  let err := newParseError typ message d.path pos tok cause
  { d with fatalError := some err, errors := d.errors ++ [err] }

/-- Model of `Document.ErrorCount` (error.go). -/
def Document.errorCount (d : Document) : Nat := d.errors.length

/-- Model of `Document.Get` (doc.go): `BufferSettings` first, then `DefaultSettings`. -/
def Document.get (d : Document) (key : String) : String :=
  match (d.bufferSettings.lookup key) with
  | some v => v
  | none =>
    match (d.defaultSettings.lookup key) with
    | some v => v
    | none => ""

/-- Model of `strings.Fields`: split around runs of `unicode.IsSpace` characters. -/
def fields (s : Str) : List Str :=
  (s.splitOnP (fun c => isUniSpace c)).filter (fun w => w ≠ [])


/-- Go slice `s[a:b]`. -/
def slice (s : Str) (a b : Nat) : Str := (s.take b).drop a

/-- Go `strings.HasPrefix`-style test on the model strings. -/
def strStarts (s p : Str) : Bool := s.take p.length == p

/-- Go `strings.Index`: index of the first occurrence of `sub`. -/
def indexOfSub (s sub : Str) : Option Nat :=
  if strStarts s sub then some 0
  else
    match s with
    | [] => none
    | _ :: t => (indexOfSub t sub).map (· + 1)

/-- Go `strings.Index` with its `-1` convention. -/
def strIndex (s sub : Str) : Int :=
  match indexOfSub s sub with
  | some n => (n : Int)
  | none => -1

/-- Helper for `splitOnSub` (fuel-driven; the fuel is always sufficient). -/
def splitOnSubF : Nat → Str → Str → List Str
  | 0, s, _ => [s]
  | f + 1, s, sep =>
    match indexOfSub s sep with
    | none => [s]
    | some i =>
      if sep = [] then [s]
      else (s.take i) :: splitOnSubF f (s.drop (i + sep.length)) sep

/-- Go `strings.Split`. -/
def splitOnSub (s sep : Str) : List Str := splitOnSubF (s.length + 1) s sep

/-- Go `strings.TrimSpace`. -/
def trimSpace (s : Str) : Str :=
  ((s.dropWhile isUniSpace).reverse.dropWhile isUniSpace).reverse

/-- The line/column pair reached after walking `charOffset` characters,
mirroring the loop of `calculatePosition` (inline.go). -/
def calcLineCol (input : Str) (startLine startColumn charOffset : Nat) : Nat × Nat :=
  (input.take charOffset).foldl
    (fun lc c => if c = '\n' then (lc.1 + 1, 1) else (lc.1, lc.2 + 1))
    (startLine, startColumn)

/-- Model of `calculatePosition` (inline.go). -/
def calculatePosition (input : Str) (startLine startColumn charOffset : Nat) : Position :=
  let lc := calcLineCol input startLine startColumn charOffset
  { startLine := lc.1, startColumn := lc.2, endLine := lc.1, endColumn := lc.2 }

/-- Model of `positionFromChars` (inline.go). -/
def positionFromChars (input : Str) (startLine startColumn startOffset endOffset : Nat) : Position :=
  let a := calcLineCol input startLine startColumn startOffset
  let b := calcLineCol input startLine startColumn endOffset
  { startLine := a.1, startColumn := a.2, endLine := b.1, endColumn := b.2 }

/-- Model of `prevRune` (inline.go); `none` models `utf8.RuneError` from decoding
at the start of the text. -/
def prevRune (s : Str) (i : Nat) : Option Char := (s.take i).getLast?

/-- Model of `nextRune` (inline.go): the rune after the one at index `i`. -/
def nextRune (s : Str) (i : Nat) : Option Char := s.get? (i + 1)

/-- Model of `isValidPreChar` (inline.go). -/
def isValidPreChar : Option Char → Bool
  | none => true
  | some r => isUniSpace r || ['-', '(', '{', '\'', '"'].contains r

/-- Model of `isValidPostChar` (inline.go). -/
def isValidPostChar : Option Char → Bool
  | none => true
  | some r => isUniSpace r || ['-', '.', ',', ':', '!', '?', ';', '\'', '"', ')', '}', '[', '\\'].contains r

/-- Model of `isValidBorderChar` (inline.go): any non-space rune. -/
def isValidBorderChar : Option Char → Bool
  | none => true
  | some r => !isUniSpace r

/-- Model of `hasValidPreAndBorderChars` (inline.go). -/
def hasValidPreAndBorderChars (s : Str) (i : Nat) : Bool :=
  isValidBorderChar (nextRune s i) && isValidPreChar (prevRune s i)

/-- Model of `hasValidPostAndBorderChars` (inline.go). -/
def hasValidPostAndBorderChars (s : Str) (i : Nat) : Bool :=
  isValidPostChar (nextRune s i) && isValidBorderChar (prevRune s i)

/-- The closing-marker scan of `parseEmphasisWithPos` (inline.go):
starting at index `i` with `cnt` newlines consumed so far, find the
first closing marker while at most `mx` newlines were crossed.  The
fuel is always at least `s.length - i`, so it never runs out. -/
def emphScanF (s : Str) (marker : Char) (start : Nat) (mx : Int) : Nat → Nat → Nat → Option Nat
  | 0, _, _ => none
  | f + 1, i, cnt =>
    if i < s.length then
      if (cnt : Int) ≤ mx then
        let c := s.getD i ' '
        let cnt2 := if c = '\n' then cnt + 1 else cnt
        if c = marker ∧ i ≠ start + 1 ∧ hasValidPostAndBorderChars s i then some i
        else emphScanF s marker start mx f (i + 1) cnt2
      else none
    else none

/-- Model of `parseLineBreakWithPos` (inline.go). -/
def parseLineBreakWithPos (_d : Document) (input : Str) (start startLine startColumn : Nat) :
    Nat × Option Node :=
  let consumed := ((input.drop start).takeWhile (· = '\n')).length
  let i := start + consumed
  let beforeLen := match (input.take start).getLast? with | none => 0 | some c => c.utf8Size
  let afterLen := match (input.drop i).head? with | none => 0 | some c => c.utf8Size
  (consumed,
   some (.lineBreak consumed (beforeLen > 1 && afterLen > 1)
     (positionFromChars input startLine startColumn start (start + consumed))))

/-- The inner loop of `parseRawInlineWithPos` (inline.go). -/
def parseRawInlineLoop (d : Document) (input : Str) (startLine startColumn : Nat) :
    Nat → Nat → Nat → List Node → List Node
  | 0, previous, _, acc =>
    acc ++ (if previous < input.length then
      [Node.text (input.drop previous) true (positionFromChars input startLine startColumn previous input.length)] else [])
  | f + 1, previous, current, acc =>
    if current < input.length then
      if input.getD current ' ' = '\n' then
        let r := parseLineBreakWithPos d input current startLine startColumn
        let acc1 := if current > previous then
            acc ++ [Node.text (slice input previous current) true (positionFromChars input startLine startColumn previous current)]
          else acc
        let acc2 := match r.2 with | some n => acc1 ++ [n] | none => acc1
        parseRawInlineLoop d input startLine startColumn f (current + r.1) (current + r.1) acc2
      else parseRawInlineLoop d input startLine startColumn f previous (current + 1) acc
    else
      acc ++ (if previous < input.length then
        [Node.text (input.drop previous) true (positionFromChars input startLine startColumn previous input.length)] else [])

/-- Model of `parseRawInlineWithPos` (inline.go). -/
def parseRawInlineWithPos (d : Document) (input : Str) (startLine startColumn : Nat) : List Node :=
  parseRawInlineLoop d input startLine startColumn (input.length + 1) 0 0 []

/-- Model of `parseRawInline` (inline.go). -/
def parseRawInline (d : Document) (input : Str) : List Node :=
  parseRawInlineWithPos d input 0 0

/-- The anchored pattern of `subScriptSuperScriptRegexp`. -/
def subSuperMatch (s : Str) : Option (Char × Str × Nat) :=
  match s with
  | c :: '{' :: rest =>
    if c = '_' ∨ c = '^' then
      let inner := rest.takeWhile (fun x => x ≠ '{' ∧ x ≠ '}')
      if inner ≠ [] ∧ (rest.drop inner.length).head? = some '}' then
        some (c, inner, inner.length + 3)
      else none
    else none
  | _ => none

/-- Model of `parseSubOrSuperScriptWithPos` (inline.go). -/
def parseSubOrSuperScriptWithPos (_d : Document) (input : Str) (start startLine startColumn : Nat) :
    Nat × Option Node :=
  match subSuperMatch (input.drop start) with
  | some (c, inner, _) =>
    let consumed := inner.length + 3
    let contentPos := positionFromChars input startLine startColumn (start + 2) (start + 2 + inner.length)
    (consumed,
     some (.emphasis [c, '{', '}'] [Node.text inner false contentPos]
       (positionFromChars input startLine startColumn start (start + consumed))))
  | none => (0, none)

/-- The anchored pattern of `footnoteRegexp`:
`^\[fn:([\w-]*?)(:(.*?))?\]`, returning name, inline definition
(empty both when the group is absent and when it is empty, exactly as
Go submatch 3) and the total match length. -/
def footnoteMatch (s : Str) : Option (Str × Str × Nat) :=
  match s with
  | '[' :: 'f' :: 'n' :: ':' :: rest =>
    let name := rest.takeWhile (fun c => isWordChar c || c = '-')
    match rest.drop name.length with
    | ']' :: _ => some (name, [], name.length + 5)
    | ':' :: r3 =>
      let dfn := r3.takeWhile (· ≠ ']')
      if dfn.contains '\n' then none
      else
        match r3.drop dfn.length with
        | ']' :: _ => some (name, dfn, name.length + dfn.length + 6)
        | _ => none
    | _ => none
  | _ => none

/-- The anchored pattern of `statisticsTokenRegexp`:
`^\[(\d+/\d+|\d+%)\]`, returning submatch 1 and the match length. -/
def statisticsMatch (s : Str) : Option (Str × Nat) :=
  match s with
  | '[' :: rest =>
    let d1 := rest.takeWhile Char.isDigit
    if d1 = [] then none
    else
      match rest.drop d1.length with
      | '/' :: r2 =>
        let d2 := r2.takeWhile Char.isDigit
        if d2 = [] then none
        else
          match r2.drop d2.length with
          | ']' :: _ => some (d1 ++ '/' :: d2, d1.length + d2.length + 3)
          | _ => none
      | '%' :: ']' :: _ => some (d1 ++ ['%'], d1.length + 3)
      | _ => none
  | _ => none

/-- Model of `parseStatisticTokenWithPos` (inline.go). -/
def parseStatisticTokenWithPos (_d : Document) (input : Str) (start startLine startColumn : Nat) :
    Nat × Option Node :=
  match statisticsMatch (input.drop start) with
  | some (m1, _) =>
    let consumed := m1.length + 2
    (consumed,
     some (.statisticToken m1 (positionFromChars input startLine startColumn start (start + consumed))))
  | none => (0, none)

/-- Test for `n` leading decimal digits. -/
def expectDigits (s : Str) (n : Nat) : Bool :=
  ((s.take n).length == n) && (s.take n).all Char.isDigit

/-- Decimal value of a digit string. -/
def digitsToNat (s : Str) : Nat :=
  s.foldl (fun a c => a * 10 + (c.toNat - 48)) 0

/-- Leap year rule of the proleptic Gregorian calendar (Go `time`). -/
def isLeapYear (y : Nat) : Bool :=
  (y % 4 == 0 && y % 100 != 0) || y % 400 == 0

/-- Days in a month (Go `time`). -/
def daysInMonth (y m : Nat) : Nat :=
  if m = 2 then (if isLeapYear y then 29 else 28)
  else if m = 4 ∨ m = 6 ∨ m = 9 ∨ m = 11 then 30
  else 31

/-- Whether Go `time.Parse` accepts the matched date and wall time. -/
def isValidDateTime (y mo dd hh mi : Nat) : Bool :=
  1 ≤ mo && mo ≤ 12 && 1 ≤ dd && dd ≤ daysInMonth y mo && hh < 24 && mi < 60

/-- The anchored pattern of `timestampRegexp`:
`^<(\d{4}-\d{2}-\d{2})( [A-Za-z]+)?( \d{2}:\d{2})?( \+\d+[dwmy])?>`,
returning submatches 1-4 (with their leading spaces, as Go does) and the
total match length. -/
def timestampMatch (s : Str) : Option (Str × Str × Str × Str × Nat) :=
  match s with
  | '<' :: r =>
    if expectDigits r 4 && (r.getD 4 ' ' == '-') && expectDigits (r.drop 5) 2 &&
       (r.getD 7 ' ' == '-') && expectDigits (r.drop 8) 2 then
      let date := r.take 10
      let r1 := r.drop 10
      let wdayR2 : Str × Str :=
        match r1 with
        | ' ' :: t =>
          let run := t.takeWhile Char.isAlpha
          if run ≠ [] then (' ' :: run, t.drop run.length) else ([], r1)
        | _ => ([], r1)
      let wday := wdayR2.1
      let r2 := wdayR2.2
      let hhmmR3 : Str × Str :=
        match r2 with
        | ' ' :: t =>
          if expectDigits t 2 && (t.getD 2 ' ' == ':') && expectDigits (t.drop 3) 2 then
            (' ' :: t.take 5, t.drop 5)
          else ([], r2)
        | _ => ([], r2)
      let hhmm := hhmmR3.1
      let r3 := hhmmR3.2
      let intvR4 : Str × Str :=
        match r3 with
        | ' ' :: '+' :: t =>
          let ds := t.takeWhile Char.isDigit
          if ds ≠ [] && (['d', 'w', 'm', 'y'].contains (t.getD ds.length ' ')) then
            (' ' :: '+' :: (ds ++ [t.getD ds.length ' ']), t.drop (ds.length + 1))
          else ([], r3)
        | _ => ([], r3)
      let intv := intvR4.1
      let r4 := intvR4.2
      match r4 with
      | '>' :: _ => some (date, wday, hhmm, intv, 12 + wday.length + hhmm.length + intv.length)
      | _ => none
    else none
  | _ => none

/-- Model of `parseTimestampWithPos` (inline.go); the `time.Parse` call is
modelled by `isValidDateTime` over the matched digit groups. -/
def parseTimestampWithPos (_d : Document) (input : Str) (start startLine startColumn : Nat) :
    Nat × Option Node :=
  match timestampMatch (input.drop start) with
  | some (date, _, hhmmRaw, intvRaw, len0) =>
    let isDate := hhmmRaw = []
    let hhmm := if hhmmRaw = [] then str "00:00" else hhmmRaw.drop 1
    let interval := trimSpace intvRaw
    let y := digitsToNat (date.take 4)
    let mo := digitsToNat (slice date 5 7)
    let dd := digitsToNat (slice date 8 10)
    let hh := digitsToNat (hhmm.take 2)
    let mi := digitsToNat (slice hhmm 3 5)
    if isValidDateTime y mo dd hh mi then
      (len0,
       some (.timestamp date hhmm isDate interval
         (positionFromChars input startLine startColumn start (start + len0))))
    else (0, none)
  | none => (0, none)

/-- Index of the last position of `line` satisfying `pred`. -/
def lastSatisfying (n : Nat) (pred : Nat → Bool) : Option Nat :=
  ((List.range n).filter pred).getLast?

/-- One attempt of the unanchored `macroRegexp` `{{{(.*)\((.*)\)}}}` at
the head of `s`: Go RE2 submatch semantics make group 1 greedy (the last
usable opening parenthesis) and group 2 greedy (the last closing
parenthesis followed by three closing braces on the same line). -/
def orgMacroTryAt (s : Str) : Option (Str × Str × Nat) :=
  match s with
  | '{' :: '{' :: '{' :: rest =>
    let line := rest.takeWhile (· ≠ '\n')
    match lastSatisfying line.length
        (fun j => (line.getD j ' ' == ')') && strStarts (line.drop (j + 1)) (str "\x7d\x7d\x7d")) with
    | none => none
    | some jstar =>
      match lastSatisfying line.length (fun i2 => (i2 < jstar) && (line.getD i2 ' ' == '(')) with
      | none => none
      | some istar => some (line.take istar, slice line (istar + 1) jstar, jstar + 7)
  | _ => none

/-- Leftmost match of `macroRegexp` (Go `FindStringSubmatch` scans every
start position in order). -/
def orgMacroMatch : Str → Option (Str × Str × Nat)
  | [] => none
  | c :: t =>
    match orgMacroTryAt (c :: t) with
    | some r => some r
    | none => orgMacroMatch t

/-- Model of `parseMacroWithPos` (inline.go).  As in Go, the consumed length is
the length of the match even when the leftmost match does not start at
`start`. -/
def parseMacroWithPos (_d : Document) (input : Str) (start startLine startColumn : Nat) :
    Nat × Option Node :=
  match orgMacroMatch (input.drop start) with
  | some (m1, m2, len0) =>
    (len0,
     some (.orgMacro m1 (splitOnSub m2 [','])
       (positionFromChars input startLine startColumn start (start + len0))))
  | none => (0, none)

/-- One attempt of the unanchored `inlineExportBlockRegexp`
`@@(\w+):(.*?)@@` at the head of `s`. -/
def exportBlockTryAt (s : Str) : Option (Str × Str × Nat) :=
  match s with
  | '@' :: '@' :: rest =>
    let w := rest.takeWhile isWordChar
    if w = [] then none
    else
      match rest.drop w.length with
      | ':' :: r3 =>
        match indexOfSub r3 (str "@@") with
        | some i =>
          if (r3.take i).contains '\n' then none
          else some (w, r3.take i, w.length + i + 5)
        | none => none
      | _ => none
  | _ => none

/-- Leftmost match of `inlineExportBlockRegexp`. -/
def exportBlockMatch : Str → Option (Str × Str × Nat)
  | [] => none
  | c :: t =>
    match exportBlockTryAt (c :: t) with
    | some r => some r
    | none => exportBlockMatch t

/-- Model of `parseInlineExportBlockWithPos` (inline.go). -/
def parseInlineExportBlockWithPos (d : Document) (input : Str) (start startLine startColumn : Nat) :
    Nat × Option Node :=
  match exportBlockMatch (input.drop start) with
  | some (w, m2, len0) =>
    (len0,
     some (.inlineBlock "export" [w] (parseRawInline d m2)
       (positionFromChars input startLine startColumn start (start + len0))))
  | none => (0, none)

/-- One attempt of the unanchored `inlineBlockRegexp`
`src_(\w+)(\[([^\]]*)\])?{([^}]*)}` at the head of `s`, returning
language, options (submatch 3, empty when absent), body and length. -/
def inlineBlockTryAt (s : Str) : Option (Str × Str × Str × Nat) :=
  match s with
  | 's' :: 'r' :: 'c' :: '_' :: rest =>
    let w := rest.takeWhile isWordChar
    if w = [] then none
    else
      match rest.drop w.length with
      | '[' :: r3 =>
        let opts := r3.takeWhile (· ≠ ']')
        (match r3.drop opts.length with
         | ']' :: '{' :: r5 =>
           let body := r5.takeWhile (· ≠ '}')
           (match r5.drop body.length with
            | '}' :: _ => some (w, opts, body, w.length + opts.length + body.length + 8)
            | _ => none)
         | _ => none)
      | '{' :: r5 =>
        let body := r5.takeWhile (· ≠ '}')
        (match r5.drop body.length with
         | '}' :: _ => some (w, [], body, w.length + body.length + 6)
         | _ => none)
      | _ => none
  | _ => none

/-- Leftmost match of `inlineBlockRegexp`. -/
def inlineBlockMatch : Str → Option (Str × Str × Str × Nat)
  | [] => none
  | c :: t =>
    match inlineBlockTryAt (c :: t) with
    | some r => some r
    | none => inlineBlockMatch t

/-- Model of `parseInlineBlockWithPos` (inline.go): triggered on the `_` of a
`src_` prefix; returns (rewind, consumed, node). -/
def parseInlineBlockWithPos (d : Document) (input : Str) (start startLine startColumn : Nat) :
    Nat × Nat × Option Node :=
  if ¬ (strStarts ((input.take start).reverse) (str "crs") ∧
        (start < 4 ∨ isUniSpace (input.getD (start - 4) ' '))) then
    (0, 0, none)
  else
    match inlineBlockMatch (input.drop (start - 3)) with
    | some (w, opts, body, len0) =>
      let pos := positionFromChars input startLine startColumn (start - 3) (start + len0)
      (3, len0, some (.inlineBlock "src" (fields (w ++ ' ' :: opts)) (parseRawInline d body) pos))
    | none => (0, 0, none)

/-- Model of `latexFragmentPairs` (inline.go). -/
def latexPair (op : Str) : Str :=
  if op = str "\\(" then str "\\)"
  else if op = str "\\[" then str "\\]"
  else if op = str "$$" then str "$$"
  else if op = str "$" then str "$"
  else []

/-- Model of `parseLatexFragmentWithPos` (inline.go). -/
def parseLatexFragmentWithPos (d : Document) (input : Str) (start : Nat) (pairLength : Nat)
    (startLine startColumn : Nat) : Nat × Option Node :=
  if start + 2 ≥ input.length then (0, none)
  else
    let pl := if pairLength = 1 ∧ slice input start (start + 2) = str "$$" then 2 else pairLength
    let op := slice input start (start + pl)
    let cl := latexPair op
    match indexOfSub (input.drop (start + pl)) cl with
    | some i =>
      let content := parseRawInline d (slice input (start + pl) (start + pl + i))
      (i + pl + pl,
       some (.latexFragment op cl content
         (positionFromChars input startLine startColumn start (start + i + pl + pl))))
    | none => (0, none)

/-- A `\end{word}` occurrence at the head of `s`, returning the word. -/
def latexEndAt (s : Str) : Option Str :=
  match s with
  | '\\' :: 'e' :: 'n' :: 'd' :: '{' :: r =>
    let w := r.takeWhile isWordChar
    if w ≠ [] ∧ (r.drop w.length).head? = some '}' then some w else none
  | _ => none

/-- The last `\end{word}` occurrence in `s` (the greedy `(.*)` of
`latexFragmentRegexp` selects the last one). -/
def lastLatexEnd (s : Str) : Option (Nat × Str) :=
  ((List.range s.length).filterMap (fun q => (latexEndAt (s.drop q)).map (fun w => (q, w)))).getLast?

/-- The pattern of `latexFragmentRegexp`
`(?s)^\\begin{(\w+)}(.*)\\end{(\w+)}` at the head of `s`: returns
(open word, content up to the last end marker, close word). -/
def beginEndMatch (s : Str) : Option (Str × Str × Str) :=
  match s with
  | '\\' :: 'b' :: 'e' :: 'g' :: 'i' :: 'n' :: '{' :: r =>
    let w := r.takeWhile isWordChar
    if w = [] ∨ (r.drop w.length).head? ≠ some '}' then none
    else
      let hlen := 8 + w.length
      match lastLatexEnd s with
      | some (q, w3) => if hlen ≤ q then some (w, slice s hlen q, w3) else none
      | none => none
  | _ => none

/-- Model of `parseExplicitLineBreakOrLatexFragmentWithPos` (inline.go). -/
def parseExplicitLineBreakOrLatexFragmentWithPos (d : Document) (input : Str)
    (start startLine startColumn : Nat) : Nat × Option Node :=
  if start + 2 ≥ input.length then (0, none)
  else if input.getD (start + 1) ' ' = '\\' ∧ start ≠ 0 ∧ input.getD (start - 1) ' ' ≠ '\n' then
    let ws := (input.drop (start + 2)).takeWhile isUniSpace
    match ws.findIdx? (· = '\n') with
    | some k =>
      (k + 3,
       some (.explicitLineBreak (positionFromChars input startLine startColumn start (start + k + 3))))
    | none => (0, none)
  else if input.getD (start + 1) ' ' = '(' ∨ input.getD (start + 1) ' ' = '[' then
    parseLatexFragmentWithPos d input start 2 startLine startColumn
  else if strStarts (input.drop start) (str "\\begin\x7b") then
    match beginEndMatch (input.drop start) with
    | some (op, content, cls) =>
      if op = cls then
        let openingPair := str "\\begin\x7b" ++ op ++ [ '}' ]
        let closingPair := str "\\end\x7b" ++ op ++ [ '}' ]
        match indexOfSub (input.drop start) closingPair with
        | some i =>
          let consumed := i + closingPair.length
          (consumed,
           some (.latexFragment openingPair closingPair (parseRawInline d content)
             (positionFromChars input startLine startColumn start (start + consumed))))
        | none => (0, none)
      else (0, none)
    | none => (0, none)
  else (0, none)

/-- The backward protocol scan of `parseAutoLinkWithPos` (inline.go):
walk down from `start-1` through letters; note index 0 is never
examined, exactly as in the Go loop. -/
def autolinkPS (input : Str) : Nat → Nat
  | 0 => 0
  | p + 1 => if ¬ isGoLetter (input.getD (p + 1) ' ') then p + 2 else autolinkPS input p

/-- The scheme set of `autolinkProtocols` `^(https?|ftp|file)$`. -/
def isRecognizedScheme (s : Str) : Bool :=
  s == str "http" || s == str "https" || s == str "ftp" || s == str "file"

/-- Model of `validURLCharacters` (inline.go). -/
def isValidURLChar (c : Char) : Bool :=
  c.isAlpha || c.isDigit ||
  ['-', '.', '_', '~', ':', '/', '?', '#', '[', ']', '@', '!', '$', '&', '\'',
   '(', ')', '*', '+', ',', ';', '='].contains c

/-- Model of `parseAutoLinkWithPos` (inline.go): returns (rewind, consumed, node). -/
def parseAutoLinkWithPos (d : Document) (input : Str) (start startLine startColumn : Nat) :
    Nat × Nat × Option Node :=
  if ¬ d.autoLink ∨ start = 0 ∨ (input.drop start).length < 3 ∨
     slice input start (start + 3) ≠ str "://" then
    (0, 0, none)
  else
    let ps := autolinkPS input (start - 1)
    let protRun := slice input ps start
    if ¬ isRecognizedScheme protRun then (0, 0, none)
    else
      let endI := start + ((input.drop start).takeWhile isValidURLChar).length
      let path := slice input start endI
      if path = str "://" then (0, 0, none)
      else
        let pos := positionFromChars input startLine startColumn (start - protRun.length) (start + path.length)
        (protRun.length, path.length + protRun.length,
         some (.regularLink protRun none (protRun ++ path) true pos))

/-- The type of the recursive inline parser passed to the sub-scanners
that recurse into full inline mode (`parseInlineWithPos` at the next
fuel level): input, start line, start column. -/
abbrev InlineFn := Str → Nat → Nat → List Node

/-- Model of `parseEmphasisWithPos` (inline.go), parameterized by the recursive
inline parser used for non-raw content. -/
def parseEmphasisG (d : Document) (pi : InlineFn) (input : Str) (start : Nat) (isRaw : Bool)
    (startLine startColumn : Nat) : Nat × Option Node :=
  let marker := input.getD start ' '
  if ¬ hasValidPreAndBorderChars input start then (0, none)
  else
    match emphScanF input marker start d.maxEmphasisNewLines (input.length + 1) (start + 1) 0 with
    | some i =>
      let content :=
        if isRaw then parseRawInline d (slice input (start + 1) i)
        else pi (slice input (start + 1) i) startLine (startColumn + start + 1)
      (i + 1 - start,
       some (.emphasis [marker] content (positionFromChars input startLine startColumn start (i + 1))))
    | none => (0, none)

/-- Model of `parseFootnoteReferenceWithPos` (inline.go). -/
def parseFootnoteReferenceG (_d : Document) (pi : InlineFn) (input : Str)
    (start startLine startColumn : Nat) : Nat × Option Node :=
  match footnoteMatch (input.drop start) with
  | some (name, dfn, len0) =>
    if name = [] ∧ dfn = [] then (0, none)
    else
      let defn : Option FootnoteDef :=
        if dfn ≠ [] then
          some (FootnoteDef.mk name
            [Node.paragraph (pi dfn startLine (startColumn + start + name.length + 5)) default]
            true default)
        else none
      (len0, some (.footnoteLink name defn
        (positionFromChars input startLine startColumn start (start + len0))))
  | none => (0, none)

/-- Model of `parseRegularLinkWithPos` (inline.go).  As in Go, `input` is first
sliced from `start`, and the final position is computed over the sliced
text with unsliced offsets. -/
def parseRegularLinkG (d : Document) (pi : InlineFn) (input0 : Str)
    (start startLine startColumn : Nat) : Nat × Option Node :=
  let input := input0.drop start
  if input.length < 3 ∨ input.take 2 ≠ str "[[" ∨ input.getD 2 ' ' = '[' then (0, none)
  else
    match indexOfSub input (str "]]") with
    | none => (0, none)
    | some endI =>
      let rawLinkParts := splitOnSub (slice input 2 endI) (str "][")
      let link := rawLinkParts.getD 0 []
      let description : Option (List Node) :=
        if rawLinkParts.length = 2 then
          some (pi (rawLinkParts.getD 1 []) startLine (startColumn + start + 2))
        else none
      if link.contains '\n' then (0, none)
      else
        let consumed := endI + 2
        let protocol : Str :=
          match indexOfSub link [':'] with
          | some k => link.take k
          | none => []
        let pos := positionFromChars input startLine startColumn start (start + consumed)
        match d.resolveLink protocol description link with
        | .regularLink p de u al _ => (consumed, some (.regularLink p de u al pos))
        | n => (consumed, some n)

/-- Model of `parseOpeningBracketWithPos` (inline.go). -/
def parseOpeningBracketG (d : Document) (pi : InlineFn) (input : Str)
    (start startLine startColumn : Nat) : Nat × Option Node :=
  if (input.drop start).length ≥ 2 ∧ input.getD start ' ' = '[' ∧ input.getD (start + 1) ' ' = '[' then
    parseRegularLinkG d pi input start startLine startColumn
  else if (footnoteMatch (input.drop start)).isSome then
    parseFootnoteReferenceG d pi input start startLine startColumn
  else if (statisticsMatch (input.drop start)).isSome then
    parseStatisticTokenWithPos d input start startLine startColumn
  else (0, none)

/-- Model of `parseSubScriptOrEmphasisOrInlineBlockWithPos` (inline.go). -/
def parseSubScriptOrEmphasisOrInlineBlockG (d : Document) (pi : InlineFn) (input : Str)
    (start startLine startColumn : Nat) : Nat × Nat × Option Node :=
  let r1 := parseInlineBlockWithPos d input start startLine startColumn
  if r1.2.1 ≠ 0 then r1
  else
    let r2 := parseSubOrSuperScriptWithPos d input start startLine startColumn
    if r2.1 ≠ 0 then (0, r2.1, r2.2)
    else
      let r3 := parseEmphasisG d pi input start false startLine startColumn
      (0, r3.1, r3.2)

/-- The trigger-character dispatch of `parseInlineWithPos` (inline.go):
returns (rewind, consumed, node). -/
def inlineDispatch (d : Document) (pi : InlineFn) (input : Str)
    (current startLine startColumn : Nat) : Nat × Nat × Option Node :=
  let c := input.getD current ' '
  if c = '^' then
    let r := parseSubOrSuperScriptWithPos d input current startLine startColumn
    (0, r.1, r.2)
  else if c = '_' then
    parseSubScriptOrEmphasisOrInlineBlockG d pi input current startLine startColumn
  else if c = '@' then
    let r := parseInlineExportBlockWithPos d input current startLine startColumn
    (0, r.1, r.2)
  else if c = '*' ∨ c = '/' ∨ c = '+' then
    let r := parseEmphasisG d pi input current false startLine startColumn
    (0, r.1, r.2)
  else if c = '=' ∨ c = '~' then
    let r := parseEmphasisG d pi input current true startLine startColumn
    (0, r.1, r.2)
  else if c = '[' then
    let r := parseOpeningBracketG d pi input current startLine startColumn
    (0, r.1, r.2)
  else if c = '{' then
    let r := parseMacroWithPos d input current startLine startColumn
    (0, r.1, r.2)
  else if c = '<' then
    let r := parseTimestampWithPos d input current startLine startColumn
    (0, r.1, r.2)
  else if c = '\\' then
    let r := parseExplicitLineBreakOrLatexFragmentWithPos d input current startLine startColumn
    (0, r.1, r.2)
  else if c = '$' then
    let r := parseLatexFragmentWithPos d input current 1 startLine startColumn
    (0, r.1, r.2)
  else if c = '\n' then
    let r := parseLineBreakWithPos d input current startLine startColumn
    (0, r.1, r.2)
  else if c = ':' then
    parseAutoLinkWithPos d input current startLine startColumn
  else (0, 0, none)

/-- The scanning loop of `parseInlineWithPos` (inline.go).  The loop
fuel is `input.length + 1` at entry, which suffices because every
iteration advances the cursor. -/
def parseInlineLoopG (d : Document) (pi : InlineFn) (input : Str) (startLine startColumn : Nat) :
    Nat → Nat → Nat → List Node → List Node
  | 0, previous, _, acc =>
    acc ++ (if previous < input.length then
      [Node.text (input.drop previous) false
        (positionFromChars input startLine startColumn previous input.length)] else [])
  | lf + 1, previous, current, acc =>
    if current < input.length then
      let r := inlineDispatch d pi input current startLine startColumn
      let rewind := r.1
      let consumed := r.2.1
      let node := r.2.2
      let current2 := current - rewind
      if consumed ≠ 0 then
        let acc1 :=
          if current2 > previous then
            acc ++ [Node.text (slice input previous current2) false
              (positionFromChars input startLine startColumn previous current2)]
          else acc
        let acc2 := match node with | some n => acc1 ++ [n] | none => acc1
        parseInlineLoopG d pi input startLine startColumn lf (current2 + consumed) (current2 + consumed) acc2
      else
        parseInlineLoopG d pi input startLine startColumn lf previous (current + 1) acc
    else
      acc ++ (if previous < input.length then
        [Node.text (input.drop previous) false
          (positionFromChars input startLine startColumn previous input.length)] else [])

/-- Model of `parseInlineWithPos` (inline.go), with a nesting-fuel argument; the
fuel is a model artifact and `input.length + 1` always suffices, since
every recursive inline parse runs on a strictly shorter span. -/
def parseInlineWithPos (d : Document) : Nat → Str → Nat → Nat → List Node
  | 0, input, startLine, startColumn =>
    if input.length ≠ 0 then
      [Node.text input false (positionFromChars input startLine startColumn 0 input.length)]
    else []
  | f + 1, input, startLine, startColumn =>
    parseInlineLoopG d (parseInlineWithPos d f) input startLine startColumn (input.length + 1) 0 0 []

/-- Model of `parseInline` (inline.go). -/
def parseInline (d : Document) (input : Str) : List Node :=
  parseInlineWithPos d (input.length + 1) input 0 0

/-- Model of `parseEmphasisWithPos` (inline.go) at a given nesting fuel. -/
def parseEmphasisWithPos (d : Document) (fuel : Nat) (input : Str) (start : Nat) (isRaw : Bool)
    (startLine startColumn : Nat) : Nat × Option Node :=
  parseEmphasisG d (parseInlineWithPos d fuel) input start isRaw startLine startColumn

/-- Model of `parseFootnoteReferenceWithPos` (inline.go) at a given nesting fuel. -/
def parseFootnoteReferenceWithPos (d : Document) (fuel : Nat) (input : Str)
    (start startLine startColumn : Nat) : Nat × Option Node :=
  parseFootnoteReferenceG d (parseInlineWithPos d fuel) input start startLine startColumn

/-- The `Document` produced by `New()` (doc.go) before any parsing:
default configuration and empty parse state. -/
def defaultDoc : Document :=
  { autoLink := true, maxEmphasisNewLines := 1,
    defaultSettings :=
      [("TODO", "TODO | DONE"), ("EXCLUDE_TAGS", "noexport"),
       ("OPTIONS", "toc:t <:t e:t f:t pri:t todo:t tags:t title:t ealb:nil")],
    resolveLink := fun protocol description link =>
      Node.regularLink protocol description link false default,
    path := "", tokens := none, baseLvl := 0, nodes := none,
    outline := initOutline, bufferSettings := [], errors := [],
    fatalError := none, pos := default }

/-- A stop predicate of the block parser. -/
abbrev StopFn := Document → Nat → Bool

/-- A block-level parse step: document, token index and stop predicate
in, mutated document, consumed count and optional node out. -/
abbrev ParseFnA := Document → Nat → StopFn → Document × Nat × Option Node

/-- The top-level stop predicate of `Parse` (doc.go):
`func(d, i) { return i >= len(d.tokens) }`. -/
def stopTop : StopFn := fun d i => decide (d.tokCount ≤ i)

/-- The pattern of `plainTextRegexp` `^(\s*)(.*)`: whole match, leading
whitespace and remaining line content. -/
def plainTextMatch (s : Str) : Str × Str × Str :=
  let m1 := s.takeWhile isRegexSpace
  let m2 := (s.drop m1.length).takeWhile (· ≠ '\n')
  (m1 ++ m2, m1, m2)

/-- Modelled from the spec: `lexText`, the plain-text fallback line
matcher (it lives outside the sources under verification).  It
classifies every line, extracting indentation level and content via the
generic plain-text pattern. -/
def lexTextM (line : Str) : Option Token :=
  let m := plainTextMatch line
  some { kind := "text", lvl := (m.2.1.length : Int), content := m.2.2,
         submatches := [m.1, m.2.1, m.2.2], line := 0, startCol := 0, endCol := 0 }

/-- Model of `tokenize` (doc.go): try each line matcher in order, first match
wins; `none` models the `(nilToken, false)` result. -/
def tokenizeWith : List (Str → Option Token) → Str → Option Token
  | [], _ => none
  | f :: rest, line =>
    match f line with
    | some t => some t
    | none => tokenizeWith rest line

/-- The loop of `Document.tokenize` (doc.go), parameterized by the line
classifier: a classified line is stamped and appended; an unclassified
line records one tokenization diagnostic and is skipped.  (The
`bufio.Scanner` I/O-error branch is outside the model.) -/
def docTokenizeLines (lex : Str → Option Token) : List Str → Nat → Document → Document
  | [], _, d => d
  | line :: rest, lineNum, d =>
    match lex line with
    | none =>
      let pos : Position := ⟨lineNum, 1, lineNum, line.length + 1⟩
      let d2 := d.addError .tokenization "could not lex line" pos
        { zeroToken with line := lineNum } (some ("no lexer matched: " ++ String.mk line))
      docTokenizeLines lex rest (lineNum + 1) d2
    | some t =>
      let t2 := { t with line := lineNum, startCol := 0, endCol := line.length }
      docTokenizeLines lex rest (lineNum + 1) { d with tokens := some (d.toks ++ [t2]) }

/-- Model of `Document.tokenize` (doc.go): initialize the token buffer to the
empty (non-nil) slice and classify each input line. -/
def docTokenize (lex : Str → Option Token) (lines : List Str) (d : Document) : Document :=
  docTokenizeLines lex lines 0 { d with tokens := some [] }

/-- The block sub-parsers dispatched by `parseOne` (doc.go).  Their
bodies live outside the sources under verification, so they are
parameters of the model. -/
structure SubParsers where
  parseList : ParseFnA
  parseTable : ParseFnA
  parseBlock : ParseFnA
  parseLatexBlock : ParseFnA
  parseResult : ParseFnA
  parseDrawer : ParseFnA
  parseParagraph : ParseFnA
  parseExample : ParseFnA
  parseHorizontalRule : ParseFnA
  parseComment : ParseFnA
  parseKeyword : ParseFnA
  parseHeadline : ParseFnA
  parseFootnoteDefinition : ParseFnA

/-- The kind switch of `parseOne` (doc.go). -/
def dispatchKind (P : SubParsers) (d : Document) (i : Nat) (stop : StopFn) :
    Document × Nat × Option Node :=
  match (d.tok i).kind with
  | "unorderedList" => P.parseList d i stop
  | "orderedList" => P.parseList d i stop
  | "tableRow" => P.parseTable d i stop
  | "tableSeparator" => P.parseTable d i stop
  | "beginBlock" => P.parseBlock d i stop
  | "beginLatexBlock" => P.parseLatexBlock d i stop
  | "result" => P.parseResult d i stop
  | "beginDrawer" => P.parseDrawer d i stop
  | "text" =>
    if (d.tok i).content = [] then (d, 1, none)
    else P.parseParagraph d i stop
  | "example" => P.parseExample d i stop
  | "horizontalRule" => P.parseHorizontalRule d i stop
  | "comment" => P.parseComment d i stop
  | "keyword" => P.parseKeyword d i stop
  | "headline" => P.parseHeadline d i stop
  | "footnoteDefinition" => P.parseFootnoteDefinition d i stop
  | _ => (d, 0, none)

/-- The coercion of `parseOne` (doc.go): rebuild the offending token as
a generic text token from `plainTextRegexp` over `matches[0]`.  The
stamp fields are the Go zero values. -/
def coerceToken (t : Token) : Token :=
  let m := plainTextMatch (t.submatches.getD 0 [])
  { kind := "text", lvl := (m.2.1.length : Int), content := m.2.2,
    submatches := [m.1, m.2.1, m.2.2], line := 0, startCol := 0, endCol := 0 }

/-- Model of `parseOne` (doc.go) with a recursion fuel (the retry after coercion
recurses; fuel 2 always suffices, as proved below). -/
def parseOneF (P : SubParsers) : Nat → Document → Nat → StopFn →
    Option (Document × Nat × Option Node)
  | 0, _, _, _ => none
  | fuel + 1, d, i, stop =>
    let r := dispatchKind P d i stop
    if r.2.1 ≠ 0 then some r
    else
      let d1 := r.1
      let d2 := d1.addError .unexpectedToken "could not parse token"
        (getPositionFromToken (d1.tok i)) (d1.tok i)
        (some ("no parser matched token kind " ++ (d1.tok i).kind))
      let d3 := d2.setTok i (coerceToken (d2.tok i))
      parseOneF P fuel d3 i stop

/-- The fallback step of `parseOne` (doc.go): record the
unexpected-token diagnostic and coerce the offending token in place. -/
def coerceStep (P : SubParsers) (d : Document) (i : Nat) (stop : StopFn) : Document :=
  let d1 := (dispatchKind P d i stop).1
  let d2 := d1.addError .unexpectedToken "could not parse token"
    (getPositionFromToken (d1.tok i)) (d1.tok i)
    (some ("no parser matched token kind " ++ (d1.tok i).kind))
  d2.setTok i (coerceToken (d2.tok i))

/-- The loop of `parseMany` (doc.go), additionally returning the (start
index, consumed) trace of the parse steps it took. -/
def parseManyF (po : ParseFnA) (stop : StopFn) :
    Nat → Document → Nat → Document × Nat × List Node × List (Nat × Nat)
  | 0, d, i => (d, i, [], [])
  | fuel + 1, d, i =>
    if i < d.tokCount ∧ ¬ stop d i then
      let r := po d i stop
      let rest := parseManyF po stop fuel r.1 (i + r.2.1)
      (rest.1, rest.2.1,
       (match r.2.2 with | some n => n :: rest.2.2.1 | none => rest.2.2.1),
       (i, r.2.1) :: rest.2.2.2)
    else (d, i, [], [])

/-- Model of `parseMany` (doc.go): repeatedly `parseOne` until the stop predicate
fires or the input is exhausted, skipping nil nodes; returns consumed
count and nodes. -/
def parseMany (po : ParseFnA) (d : Document) (i : Nat) (stop : StopFn) :
    Document × Nat × List Node :=
  let r := parseManyF po stop (d.tokCount + 1) d i
  (r.1, r.2.1 - i, r.2.2.1)

/-- Predicate: `steps` partitions the index range `[i, j)` into consecutive
positive consumptions: each step starts where the previous one ended
and consumes at least one token. -/
def coversB : Nat → List (Nat × Nat) → Nat → Bool
  | i, [], j => i == j
  | i, (a, c) :: rest, j => (a == i) && (1 ≤ c) && coversB (i + c) rest j

/-- Modelled from the spec: `isSecondBlankLine` (util.go, outside the
sources under verification) — the token and its predecessor are both
blank text lines. -/
def isSecondBlankLineM (d : Document) (i : Nat) : Bool :=
  if i ≤ 1 then false
  else ((d.tok (i - 1)).kind == "text") && ((d.tok (i - 1)).content == []) &&
       ((d.tok i).kind == "text") && ((d.tok i).content == [])

/-- The unanchored `listItemValueRegexp` `\[@(\d+)\]\s`: submatch 1 of
the leftmost occurrence. -/
def listItemValueTryAt (s : Str) : Option Str :=
  match s with
  | '[' :: '@' :: r =>
    let ds := r.takeWhile Char.isDigit
    let ok : Bool := (!ds.isEmpty) && ((r.drop ds.length).head? == some ']') &&
      isRegexSpace ((r.drop (ds.length + 1)).head?.getD '\x00')
    if ok then some ds else none
  | _ => none

/-- Leftmost match of `listItemValueRegexp`. -/
def listItemValueMatch : Str → Option Str
  | [] => none
  | c :: t =>
    match listItemValueTryAt (c :: t) with
    | some r => some r
    | none => listItemValueMatch t

/-- The unanchored `listItemStatusRegexp` `\[( |X|-)\]\s`: submatch 1
of the leftmost occurrence. -/
def listItemStatusTryAt (s : Str) : Option Char :=
  match s with
  | '[' :: c :: ']' :: r =>
    let ok : Bool := (c == ' ' || c == 'X' || c == '-') && isRegexSpace (r.head?.getD '\x00')
    if ok then some c else none
  | _ => none

/-- Leftmost match of `listItemStatusRegexp`. -/
def listItemStatusMatch : Str → Option Char
  | [] => none
  | c :: t =>
    match listItemStatusTryAt (c :: t) with
    | some r => some r
    | none => listItemStatusMatch t

/-- The unanchored `descriptiveListItemRegexp` `\s::(\s|$)`: the
(start, end) index pair of the leftmost occurrence, as
`FindStringIndex`. -/
def descriptiveSepTryAt (s : Str) : Option Nat :=
  match s with
  | c :: ':' :: ':' :: r =>
    if isRegexSpace c then
      match r.head? with
      | some c2 => if isRegexSpace c2 then some 4 else none
      | none => some 3
    else none
  | _ => none

/-- Leftmost match of `descriptiveListItemRegexp`, as index pair. -/
def descriptiveSepMatch : Str → Option (Nat × Nat)
  | [] => none
  | c :: t =>
    match descriptiveSepTryAt (c :: t) with
    | some len => some (0, len)
    | none => (descriptiveSepMatch t).map (fun p => (p.1 + 1, p.2 + 1))

/-- The in-place re-tokenization `d.tokens[i], ok = tokenize(...)` of
`parseListItem` and `parseFootnoteDefinition`: on failure the slot
holds `nilToken` and one tokenization diagnostic is recorded. -/
def replaceTok (tok : Str → Option Token) (dB : Document) (i : Nat) (line : Str) : Document :=
  match tok line with
  | some t => dB.setTok i t
  | none =>
    let dT := dB.setTok i nilToken
    dT.addError .tokenization "could not lex line" (getPositionFromToken (dT.tok i)) (dT.tok i)
      (some ("no lexer matched: " ++ toString (dT.tok i).line))

/-- The set-up phase of `parseListItem` (list.go): read bullet, value,
status and descriptive term, set `baseLvl` for the item body, and
re-tokenize the bullet-stripped content in place.  Returns the prepared
document together with `minIndent`, bullet, value, status and term. -/
def parseListItemSetup (tok : Str → Option Token) (d : Document) (l : ListKind) (i : Nat) :
    Document × Int × Str × Str × Str × Str :=
  let bullet := (d.tok i).submatches.getD 2 []
  let minIndent : Int := (d.tok i).lvl + bullet.length
  let content0 := (d.tok i).content
  let dA := { d with baseLvl := minIndent + 1 }
  let vc : Str × Str :=
    match listItemValueMatch content0 with
    | some ds => if l = ListKind.ordered then (ds, content0.drop (4 + ds.length)) else ([], content0)
    | none => ([], content0)
  let value := vc.1
  let content1 := vc.2
  let sc : Str × Str :=
    match listItemStatusMatch content1 with
    | some c => ([c], content1.drop 4)
    | none => ([], content1)
  let status := sc.1
  let content2 := sc.2
  let dtc : Document × Str × Str :=
    if l = ListKind.descriptive then
      match descriptiveSepMatch content2 with
      | some p =>
        ({ dA with baseLvl := strIndex ((d.tok i).submatches.getD 0 []) (str " ::") + 4 },
         content2.take p.1, content2.drop p.2)
      | none => (dA, [], content2)
    else (dA, [], content2)
  let dB := dtc.1
  let dterm := dtc.2.1
  let content3 := dtc.2.2
  let newLine := List.replicate minIndent.toNat ' ' ++ content3
  (replaceTok tok dB i newLine, minIndent, bullet, value, status, dterm)

/-- The stop predicate composed inside `parseListItem` (list.go). -/
def listItemStop (parentStop : StopFn) (minIndent : Int) : StopFn := fun d i =>
  parentStop d i ||
    ((d.tok i).lvl < minIndent && ¬ ((d.tok i).kind == "text" && (d.tok i).content == []))

/-- The body loop of `parseListItem` (list.go); Go appends the possibly
nil node of every step. -/
def parseListItemLoop (po : ParseFnA) (stop : StopFn) (start : Nat) :
    Nat → Document → Nat → List (Option Node) → Option (Document × Nat × List (Option Node))
  | 0, _, _, _ => none
  | fuel + 1, d, i, nodes =>
    if ¬ stop d i ∧ (i ≤ start + 1 ∨ ¬ isSecondBlankLineM d i) then
      let r := po d i stop
      parseListItemLoop po stop start fuel r.1 (i + r.2.1) (nodes ++ [r.2.2])
    else some (d, i, nodes)

/-- Model of `parseListItem` (list.go), with `parseOne` and `tokenize`
abstracted and a loop fuel; `none` models a body loop that does not
return. -/
def parseListItemF (tok : Str → Option Token) (po : ParseFnA) (fuel : Nat)
    (d : Document) (l : ListKind) (i : Nat) (parentStop : StopFn) :
    Option (Document × Nat × Node) :=
  let start := i
  let su := parseListItemSetup tok d l i
  let d2 := su.1
  let minIndent := su.2.1
  let bullet := su.2.2.1
  let value := su.2.2.2.1
  let status := su.2.2.2.2.1
  let dterm := su.2.2.2.2.2
  let stop := listItemStop parentStop minIndent
  match parseListItemLoop po stop start fuel d2 i [] with
  | none => none
  | some (d3, iF, nodes) =>
    let d4 := { d3 with baseLvl := d.baseLvl }
    let pos : Position :=
      { startLine := (d4.tok start).line, startColumn := (d4.tok start).startCol,
        endLine := (d4.tok (iF - 1)).line, endColumn := (d4.tok (iF - 1)).endCol }
    if l = ListKind.descriptive then
      some (d4, iF - start, Node.descriptiveListItem bullet status (parseInline d4 dterm) nodes pos)
    else
      some (d4, iF - start, Node.listItem bullet status value nodes pos)

/-- Modelled from the spec: `Headline.IsExcluded` (headline.go, outside
the sources under verification) — the headline carries a tag listed in
the `EXCLUDE_TAGS` setting. -/
def isExcludedM (d : Document) (h : HeadlineM) : Bool :=
  h.tags.any (fun t => (fields (str (d.get "EXCLUDE_TAGS"))).contains (str t))

/-- Model of `addHeadline` (doc.go): wrap the headline in a new section, append
it as a child of the cursor section, bump the visible count unless the
headline is excluded, advance the cursor, return the count. -/
def addHeadline (d : Document) (h : HeadlineM) : Document × Int :=
  let o := d.outline
  let idx := o.nodes.length
  let old := o.nodes.getD o.lastIdx ⟨none, []⟩
  let nodes1 := o.nodes.set o.lastIdx { old with childIdxs := old.childIdxs ++ [idx] } ++ [⟨some h, []⟩]
  let count1 := if isExcludedM d h then o.count else o.count + 1
  ({ d with outline := { nodes := nodes1, lastIdx := idx, count := count1 } }, count1)

/-- Section index `j` is linked into the outline tree: it is the root or
the child of some section of the arena. -/
def linkedInto (o : OutlineM) (j : Nat) : Bool :=
  j == 0 || (List.range o.nodes.length).any (fun p => (o.nodes.getD p ⟨none, []⟩).childIdxs.contains j)

/-- The fresh session `Parse` (doc.go) builds from its configuration:
empty parse state over the carried configuration. -/
def freshDoc (conf : Document) : Document :=
  { conf with
    tokens := none, baseLvl := 0, nodes := none, outline := initOutline,
    bufferSettings := [], errors := [], fatalError := none, pos := default }

/-- The body of `Parse` (doc.go) inside the recover guard, over an
existing session: the multiple-call check, tokenization, and the
top-level `parseMany`; returns the session state and the returned
pointer (`none` models the `nil` return). -/
def parseSession (lex : Str → Option Token) (po : ParseFnA) (lines : List Str)
    (d : Document) : Document × Option Document :=
  if d.tokens ≠ none then
    (d.addError .validation "parse called multiple times" d.pos zeroToken none, none)
  else
    let d1 := docTokenize lex lines d
    let r := parseMany po d1 0 stopTop
    let d2 := { r.1 with nodes := some r.2.2 }
    (d2, some d2)

/-- The deferred recover guard of `Parse` (doc.go): the body either
finishes normally or panics with a message; a panic is converted into a
diagnostic of kind invalid structure via `AddError` and the session is
still returned. -/
def parseGuarded (body : Document → Document × Option String) (d0 : Document) : Document :=
  let r := body d0
  match r.2 with
  | none => r.1
  | some msg =>
    r.1.addError .invalidStructure "parse panic" r.1.pos zeroToken
      (some ("recovered from panic: " ++ msg))

/-- Model of `Parse` (doc.go): guard around the session body on a fresh session
(the Lean body is total, so the no-panic branch is taken). -/
def parseEntry (lex : Str → Option Token) (po : ParseFnA) (lines : List Str)
    (conf : Document) : Document :=
  parseGuarded (fun d0 => ((parseSession lex po lines d0).1, none)) (freshDoc conf)


/-- Number of newline characters at positions `[a, b)` of `s`. -/
def nlCount (s : Str) (a b : Nat) : Nat :=
  ((slice s a b).filter (fun c => c == '\n')).length

/-- The emphasis-success condition in the words of the spec: a valid
pre-character before the marker (start-of-text, whitespace or one of
`- ( { ' "`), a non-space border character after it, and a closing
occurrence of the marker strictly beyond `start+1` whose preceding
character is non-space and whose following character is a valid
post-character, with at most `mx` newlines spanned in between. -/
def emphasisSpecOK (input : Str) (start : Nat) (mx : Int) : Prop :=
  isValidPreChar (prevRune input start) = true ∧
  isValidBorderChar (nextRune input start) = true ∧
  ∃ j, start + 1 < j ∧ j < input.length ∧ input.getD j ' ' = input.getD start ' ' ∧
    isValidBorderChar (prevRune input j) = true ∧
    isValidPostChar (nextRune input j) = true ∧
    ((nlCount input (start + 1) j : Int) ≤ mx)

/-- The inline-definition part (submatch 3) of a footnote-reference
candidate. -/
def footnoteDefPart (input : Str) (start : Nat) : Str :=
  match footnoteMatch (input.drop start) with
  | some r => r.2.1
  | none => []

/-- The tokens `Document.tokenize` appends for the given lines starting
at line number `k`: one stamped token per classified line, none for an
unclassified line. -/
def stamped (lex : Str → Option Token) : Nat → List Str → List Token
  | _, [] => []
  | k, line :: rest =>
    (match lex line with
     | some t => [{ t with line := k, startCol := 0, endCol := line.length }]
     | none => []) ++ stamped lex (k + 1) rest

/-- The diagnostics `Document.tokenize` records for the given lines
starting at line number `k`: exactly one tokenization error per
unclassified line. -/
def tokErrs (lex : Str → Option Token) (path : String) : Nat → List Str → List ParseError
  | _, [] => []
  | k, line :: rest =>
    (match lex line with
     | some _ => []
     | none => [newParseError .tokenization "could not lex line" path ⟨k, 1, k, line.length + 1⟩
         { zeroToken with line := k } (some ("no lexer matched: " ++ String.mk line))]) ++
    tokErrs lex path (k + 1) rest

/-- A one-token document used to instantiate the list-item theorems. -/
def itemWitnessDoc : Document :=
  { defaultDoc with
    baseLvl := 7,
    tokens := some [{ kind := "unorderedList", lvl := 0, content := str "a",
                      submatches := [str "- a", str "", str "-", str " a", str "a"],
                      line := 0, startCol := 0, endCol := 3 }] }

/-- C5: with auto-linking enabled, inline parsing of
`see https://example.com/x here` produces a RegularLink node with
protocol `https` and URL `https://example.com/x` (with plain text
around it), and inline parsing of `xhttps://example.com` produces no
autolink node — only verbatim text — because the letter run before
`://` is `xhttps`, which is not a recognized scheme. -/
theorem claim_C5_autolink :
    parseInline defaultDoc (str "see https://example.com/x here") =
      [Node.text (str "see ") false ⟨0, 0, 0, 4⟩,
       Node.regularLink (str "https") none (str "https://example.com/x") true ⟨0, 4, 0, 25⟩,
       Node.text (str " here") false ⟨0, 25, 0, 30⟩] ∧
    parseInline defaultDoc (str "xhttps://example.com") =
      [Node.text (str "xhttps://example.com") false ⟨0, 0, 0, 20⟩] := by
  exact ⟨rfl, rfl⟩


/-- C10: the exact candidate `[fn:]` (empty name and empty inline
definition) is rejected by the footnote-reference sub-scanner with
consumed 0 and no node, so inline parsing emits it verbatim as text;
and whenever the sub-scanner succeeds, the returned footnote link
carries a definition (with `Inline` true) if and only if the inline
definition part of the match is non-empty. -/
theorem claim_C10_footnote_reference :
    (∀ (d : Document) (pi : InlineFn) (sl sc : Nat),
       parseFootnoteReferenceG d pi (str "[fn:]") 0 sl sc = (0, none)) ∧
    parseInline defaultDoc (str "[fn:]") =
      [Node.text (str "[fn:]") false ⟨0, 0, 0, 5⟩] ∧
    (∀ (d : Document) (pi : InlineFn) (input : Str) (start sl sc : Nat)
       (c : Nat) (name : Str) (defn : Option FootnoteDef) (pos : Position),
       parseFootnoteReferenceG d pi input start sl sc = (c, some (Node.footnoteLink name defn pos)) →
       (defn.isSome = true ↔ footnoteDefPart input start ≠ []) ∧
       (∀ nm ch inl p, defn = some (FootnoteDef.mk nm ch inl p) → inl = true)) := by
  refine ⟨fun d pi sl sc => rfl, rfl, ?_⟩
  intro d pi input start sl sc c name defn pos h
  unfold parseFootnoteReferenceG at h
  unfold footnoteDefPart
  cases hm : footnoteMatch (input.drop start) with
  | none => rw [hm] at h; exact absurd h (by simp)
  | some r =>
    obtain ⟨name0, dfn0, len0⟩ := r
    rw [hm] at h
    simp only at h
    by_cases hz : name0 = [] ∧ dfn0 = []
    · rw [if_pos hz] at h; exact absurd h (by simp)
    · rw [if_neg hz] at h
      simp only [Prod.mk.injEq, Option.some.injEq, Node.footnoteLink.injEq] at h
      obtain ⟨hc, hname, hdefn, hpos⟩ := h
      by_cases hd : dfn0 = []
      · subst hdefn
        rw [if_neg (by simp [hd])]
        constructor
        · simp [hd]
        · intro nm ch inl p hcontra
          exact Option.noConfusion hcontra
      · subst hdefn
        constructor
        · simp [hd]
        · intro nm ch inl p heq
          rw [if_pos hd] at heq
          simp only [Option.some.injEq, FootnoteDef.mk.injEq] at heq
          exact heq.2.2.1.symm
  
/-- Witness for the footnote-reference theorem at the concrete input
`[fn:x:y]`. -/
theorem claim_C10_footnote_reference_witness :
    ((some (FootnoteDef.mk (str "x")
        [Node.paragraph [] default] true default) : Option FootnoteDef).isSome = true ↔
      footnoteDefPart (str "[fn:x:y]") 0 ≠ []) :=
  (claim_C10_footnote_reference.2.2 defaultDoc (fun _ _ _ => []) (str "[fn:x:y]") 0 0 0 8
    (str "x") (some (FootnoteDef.mk (str "x") [Node.paragraph [] default] true default))
    ⟨0, 0, 0, 8⟩ rfl).1

/-- C1 counterexample: a panic inside the parse body is converted by
the guard into an ordinary invalid-structure diagnostic via `AddError`,
so the session's fatal-error slot stays empty and `HasFatalError`
returns `false`, contrary to the claim. -/
theorem claim_C1_panic_guard_counterexample :
    (parseGuarded (fun d => (d, some "boom")) (freshDoc defaultDoc)).hasFatalError = false ∧
    (parseGuarded (fun d => (d, some "boom")) (freshDoc defaultDoc)).errors =
      [newParseError .invalidStructure "parse panic" "" default zeroToken
        (some "recovered from panic: boom")] := ⟨rfl, rfl⟩

/-- C1 amended: when the parse body panics, the guard does not let the
panic escape — it returns the session after appending one diagnostic of
kind invalid structure (via `AddError`); the fatal-error slot is left
untouched, so `HasFatalError` is unchanged rather than forced true. -/
theorem claim_C1_panic_guard (body : Document → Document × Option String)
    (d0 d1 : Document) (msg : String) (h : body d0 = (d1, some msg)) :
    parseGuarded body d0 =
      d1.addError .invalidStructure "parse panic" d1.pos zeroToken
        (some ("recovered from panic: " ++ msg)) ∧
    (parseGuarded body d0).errors =
      d1.errors ++ [newParseError .invalidStructure "parse panic" d1.path d1.pos zeroToken
        (some ("recovered from panic: " ++ msg))] ∧
    (parseGuarded body d0).fatalError = d1.fatalError ∧
    (parseGuarded body d0).hasFatalError = d1.hasFatalError := by
  unfold parseGuarded
  rw [h]
  exact ⟨rfl, rfl, rfl, rfl⟩

/-- Witness for the amended panic-guard theorem at a concrete panic. -/
theorem claim_C1_panic_guard_witness :
    parseGuarded (fun d => (d, some "x")) defaultDoc =
      defaultDoc.addError .invalidStructure "parse panic" defaultDoc.pos zeroToken
        (some ("recovered from panic: " ++ "x")) :=
  (claim_C1_panic_guard (fun d => (d, some "x")) defaultDoc defaultDoc "x" rfl).1

/-- C8: `addHeadline` wraps the headline in a new section appended at
the end of the arena, links it as the last child of the cursor section,
leaves every other section untouched (no re-parenting), advances the
cursor to the new section, bumps the visible count exactly when the
headline is not exclusion-tagged, returns the resulting count, and the
cursor again points at a section linked into the tree. -/
theorem claim_C8_addHeadline (d : Document) (h : HeadlineM)
    (hwf : d.outline.lastIdx < d.outline.nodes.length) :
    (addHeadline d h).1.outline.nodes.length = d.outline.nodes.length + 1 ∧
    (addHeadline d h).1.outline.nodes.getD d.outline.nodes.length ⟨none, []⟩ = ⟨some h, []⟩ ∧
    ((addHeadline d h).1.outline.nodes.getD d.outline.lastIdx ⟨none, []⟩).childIdxs
      = (d.outline.nodes.getD d.outline.lastIdx ⟨none, []⟩).childIdxs ++ [d.outline.nodes.length] ∧
    (∀ j, j < d.outline.nodes.length → j ≠ d.outline.lastIdx →
       (addHeadline d h).1.outline.nodes.getD j ⟨none, []⟩ = d.outline.nodes.getD j ⟨none, []⟩) ∧
    (addHeadline d h).1.outline.lastIdx = d.outline.nodes.length ∧
    (addHeadline d h).1.outline.count
      = d.outline.count + (if isExcludedM d h then 0 else 1) ∧
    (addHeadline d h).2 = (addHeadline d h).1.outline.count ∧
    linkedInto (addHeadline d h).1.outline (addHeadline d h).1.outline.lastIdx = true := by
  have hlen : d.outline.lastIdx < (d.outline.nodes.set d.outline.lastIdx
      { d.outline.nodes.getD d.outline.lastIdx ⟨none, []⟩ with
        childIdxs := (d.outline.nodes.getD d.outline.lastIdx ⟨none, []⟩).childIdxs
          ++ [d.outline.nodes.length] }).length := by
    simpa using hwf
  unfold addHeadline linkedInto
  simp only
  refine ⟨?_, ?_, ?_, ?_, ?_, ?_, ?_, ?_⟩
  · simp
  · rw [List.getD_eq_getElem?_getD, List.getElem?_append_right (by simp),
      List.length_set]
    simp
  · rw [List.getD_eq_getElem?_getD, List.getElem?_append_left hlen,
      List.getElem?_set_self hwf]
    rfl
  · intro j hj hne
    have hlenj : j < (d.outline.nodes.set d.outline.lastIdx
        { d.outline.nodes.getD d.outline.lastIdx ⟨none, []⟩ with
          childIdxs := (d.outline.nodes.getD d.outline.lastIdx ⟨none, []⟩).childIdxs
            ++ [d.outline.nodes.length] }).length := by
      simpa using hj
    rw [List.getD_eq_getElem?_getD, List.getElem?_append_left hlenj,
      List.getElem?_set_ne (fun hcc => hne hcc.symm), List.getD_eq_getElem?_getD]
  · trivial
  · split <;> simp
  · trivial
  · rw [Bool.or_eq_true]
    right
    rw [List.any_eq_true]
    refine ⟨d.outline.lastIdx, ?_, ?_⟩
    · simp
      omega
    · rw [List.getD_eq_getElem?_getD, List.getElem?_append_left hlen,
        List.getElem?_set_self hwf]
      simp

/-- Witness for the outline theorem on the fresh outline. -/
theorem claim_C8_addHeadline_witness :
    (addHeadline defaultDoc ⟨1, []⟩).1.outline.nodes.length
      = defaultDoc.outline.nodes.length + 1 ∧
    (addHeadline defaultDoc ⟨1, []⟩).2 = (addHeadline defaultDoc ⟨1, []⟩).1.outline.count := by
  have h := claim_C8_addHeadline defaultDoc ⟨1, []⟩ (by decide)
  exact ⟨h.1, h.2.2.2.2.2.2.1⟩

theorem replaceTok_baseLvl (tok : Str → Option Token) (dB : Document) (i : Nat) (line : Str) :
    (replaceTok tok dB i line).baseLvl = dB.baseLvl := by
  unfold replaceTok
  split <;> rfl

/-- C9: `parseListItem` restores `baseLvl` on every return path — the
document it returns carries the caller's `baseLvl` unchanged — and the
value it uses while parsing the item body is the bullet indentation
plus bullet width plus one, or, for a descriptive item with a `::`
separator, the column just past the separator. -/
theorem claim_C9_baseLvl_frame :
    (∀ (tok : Str → Option Token) (po : ParseFnA) (fuel : Nat) (d : Document) (l : ListKind)
       (i : Nat) (ps : StopFn) (r : Document × Nat × Node),
       parseListItemF tok po fuel d l i ps = some r → r.1.baseLvl = d.baseLvl) ∧
    (∀ (tok : Str → Option Token) (d : Document) (l : ListKind) (i : Nat),
       (parseListItemSetup tok d l i).1.baseLvl =
           (d.tok i).lvl + ((d.tok i).submatches.getD 2 []).length + 1 ∨
       (l = ListKind.descriptive ∧
        (parseListItemSetup tok d l i).1.baseLvl =
          strIndex ((d.tok i).submatches.getD 0 []) (str " ::") + 4)) := by
  constructor
  · intro tok po fuel d l i ps r h
    simp only [parseListItemF] at h
    cases hl : parseListItemLoop po (listItemStop ps (parseListItemSetup tok d l i).2.1) i fuel
        (parseListItemSetup tok d l i).1 i [] with
    | none =>
      rw [hl] at h
      exact Option.noConfusion h
    | some trip =>
      obtain ⟨d3, iF, nodes⟩ := trip
      rw [hl] at h
      split at h
      · rename_i heq
        exact Option.noConfusion heq
      · split at h <;> (injection h with h2; subst h2; rfl)
  · intro tok d l i
    simp only [parseListItemSetup, replaceTok_baseLvl]
    cases l <;> repeat' split
    all_goals first
      | exact Or.inl rfl
      | exact Or.inr ⟨rfl, rfl⟩
      | simp_all

/-- Witness: a concrete list-item parse returns with `baseLvl` equal to
the caller's value (7). -/
theorem claim_C9_baseLvl_frame_witness :
    (({ itemWitnessDoc with
        tokens := some [{ kind := "text", lvl := 1, content := str "a",
                          submatches := [str " a", str " ", str "a"],
                          line := 0, startCol := 0, endCol := 0 }] } : Document), 0,
      Node.listItem (str "-") [] [] [] ⟨0, 0, 0, 0⟩).1.baseLvl = itemWitnessDoc.baseLvl :=
  claim_C9_baseLvl_frame.1 lexTextM (fun d _ _ => (d, 1, none)) 1 itemWitnessDoc
    ListKind.unordered 0 (fun _ _ => true) _ rfl

theorem docTokenizeLines_spec (lex : Str → Option Token) :
    ∀ (lines : List Str) (k : Nat) (d : Document) (ts : List Token),
      d.tokens = some ts →
      (docTokenizeLines lex lines k d).tokens = some (ts ++ stamped lex k lines) ∧
      (docTokenizeLines lex lines k d).errors = d.errors ++ tokErrs lex d.path k lines ∧
      (docTokenizeLines lex lines k d).path = d.path := by
  intro lines
  induction lines with
  | nil =>
    intro k d ts hts
    simp [docTokenizeLines, stamped, tokErrs, hts]
  | cons line rest ih =>
    intro k d ts hts
    unfold docTokenizeLines
    cases hx : lex line with
    | none =>
      have hrec := ih (k + 1)
        (d.addError .tokenization "could not lex line" ⟨k, 1, k, line.length + 1⟩
          { zeroToken with line := k } (some ("no lexer matched: " ++ String.mk line)))
        ts hts
      refine ⟨?_, ?_, ?_⟩
      · rw [hrec.1]
        simp [stamped, hx]
      · rw [hrec.2.1]
        simp [tokErrs, hx, Document.addError, newParseError]
      · exact hrec.2.2
    | some t =>
      have htoks : ({ d with tokens := some (d.toks ++
          [{ t with line := k, startCol := 0, endCol := line.length }]) } : Document).tokens
          = some (ts ++ [{ t with line := k, startCol := 0, endCol := line.length }]) := by
        simp [Document.toks, hts]
      have hrec := ih (k + 1)
        { d with tokens := some (d.toks ++ [{ t with line := k, startCol := 0, endCol := line.length }]) }
        (ts ++ [{ t with line := k, startCol := 0, endCol := line.length }]) htoks
      refine ⟨?_, ?_, ?_⟩
      · rw [hrec.1]
        simp [stamped, hx]
      · rw [hrec.2.1]
        simp [tokErrs, hx]
      · exact hrec.2.2

theorem tokenizeWith_total (fns : List (Str → Option Token)) (line : Str) :
    (tokenizeWith (fns ++ [lexTextM]) line).isSome = true := by
  induction fns with
  | nil => rfl
  | cons f rest ih =>
    show (match f line with
          | some t => some t
          | none => tokenizeWith (rest ++ [lexTextM]) line).isSome = true
    cases f line with
    | some t => rfl
    | none => exact ih

/-- C2 amended: `Document.tokenize` records exactly one tokenization
diagnostic per line that the classifier rejects and does not abort —
every remaining line is still processed — but it skips the rejected
line entirely: no plain-text fallback token is synthesized, so the
line's content does not reach the parse tree.  Moreover the matcher
list of the program ends with the plain-text matcher, which classifies
every line, so with the program's own matchers no line is ever
rejected. -/
theorem claim_C2_tokenize :
    (∀ (lex : Str → Option Token) (lines : List Str) (d : Document),
       (docTokenize lex lines d).tokens = some (stamped lex 0 lines) ∧
       (docTokenize lex lines d).errors = d.errors ++ tokErrs lex d.path 0 lines) ∧
    (∀ (fns : List (Str → Option Token)) (line : Str),
       (tokenizeWith (fns ++ [lexTextM]) line).isSome = true) := by
  constructor
  · intro lex lines d
    have h := docTokenizeLines_spec lex lines 0 { d with tokens := some [] } [] rfl
    exact ⟨by simpa using h.1, by simpa using h.2.1⟩
  · exact tokenizeWith_total

/-- C2 counterexample: a line rejected by the classifier contributes no
token at all — the token buffer stays empty and the sole record of the
line is the tokenization diagnostic — contradicting the claimed
fall-back to plain text. -/
theorem claim_C2_tokenize_counterexample :
    (docTokenize (fun _ => none) [str "hello"] defaultDoc).tokens = some [] ∧
    (docTokenize (fun _ => none) [str "hello"] defaultDoc).errors.length = 1 := ⟨rfl, rfl⟩

theorem parseManyF_complete (po : ParseFnA)
    (hpo : ∀ (d : Document) (i : Nat) (s : StopFn), i < d.tokCount →
      1 ≤ (po d i s).2.1 ∧ i + (po d i s).2.1 ≤ d.tokCount ∧ (po d i s).1.tokCount = d.tokCount) :
    ∀ (fuel : Nat) (d : Document) (i : Nat), i ≤ d.tokCount → d.tokCount - i < fuel →
      (parseManyF po stopTop fuel d i).2.1 = d.tokCount ∧
      coversB i (parseManyF po stopTop fuel d i).2.2.2 d.tokCount = true := by
  intro fuel
  induction fuel with
  | zero => intro d i hle hfuel; omega
  | succ fuel ih =>
    intro d i hle hfuel
    unfold parseManyF
    by_cases hlt : i < d.tokCount
    · have hcond : i < d.tokCount ∧ ¬ stopTop d i = true := by
        refine ⟨hlt, ?_⟩
        simp [stopTop]
        omega
      rw [if_pos hcond]
      obtain ⟨h1, h2, h3⟩ := hpo d i stopTop hlt
      have hrec := ih (po d i stopTop).1 (i + (po d i stopTop).2.1) (by omega) (by omega)
      rw [h3] at hrec
      refine ⟨hrec.1, ?_⟩
      unfold coversB
      rw [Bool.and_eq_true, Bool.and_eq_true]
      exact ⟨⟨by simp, by simpa using h1⟩, hrec.2⟩
    · have hi : i = d.tokCount := by omega
      have hcond : ¬ (i < d.tokCount ∧ ¬ stopTop d i = true) := by
        intro hc
        exact absurd hc.1 hlt
      rw [if_neg hcond]
      subst hi
      exact ⟨rfl, by simp [coversB]⟩

/-- C3: for any input, tokenization followed by the top-level
`parseMany` (stop predicate: index at or past the token count)
completes within bounded fuel with the index exactly at the token
count, so the consumed total equals the number of tokens; the recorded
step trace partitions the token range into consecutive positive
consumptions — indices advance monotonically and no token is consumed
twice.  The sub-parsers behind `parseOne` are abstracted by the
contract that a step at a valid index consumes at least one and at most
the remaining tokens and preserves the token count. -/
theorem claim_C3_parseMany_consumes_all (lex : Str → Option Token) (lines : List Str)
    (conf : Document) (po : ParseFnA)
    (hpo : ∀ (d : Document) (i : Nat) (s : StopFn), i < d.tokCount →
      1 ≤ (po d i s).2.1 ∧ i + (po d i s).2.1 ≤ d.tokCount ∧ (po d i s).1.tokCount = d.tokCount) :
    (parseManyF po stopTop ((docTokenize lex lines (freshDoc conf)).tokCount + 1)
        (docTokenize lex lines (freshDoc conf)) 0).2.1
      = (docTokenize lex lines (freshDoc conf)).tokCount ∧
    coversB 0 (parseManyF po stopTop ((docTokenize lex lines (freshDoc conf)).tokCount + 1)
        (docTokenize lex lines (freshDoc conf)) 0).2.2.2
        (docTokenize lex lines (freshDoc conf)).tokCount = true ∧
    (parseMany po (docTokenize lex lines (freshDoc conf)) 0 stopTop).2.1
      = (docTokenize lex lines (freshDoc conf)).tokCount := by
  have h := parseManyF_complete po hpo ((docTokenize lex lines (freshDoc conf)).tokCount + 1)
    (docTokenize lex lines (freshDoc conf)) 0 (by omega) (by omega)
  exact ⟨h.1, h.2, by simpa [parseMany] using h.1⟩

/-- Witness for the parse-all theorem: a unit-step parser over two
plain-text lines consumes both tokens. -/
theorem claim_C3_parseMany_consumes_all_witness :
    (parseManyF (fun d _ _ => (d, 1, none)) stopTop
        ((docTokenize lexTextM [str "a", str "b"] (freshDoc defaultDoc)).tokCount + 1)
        (docTokenize lexTextM [str "a", str "b"] (freshDoc defaultDoc)) 0).2.1
      = (docTokenize lexTextM [str "a", str "b"] (freshDoc defaultDoc)).tokCount :=
  (claim_C3_parseMany_consumes_all lexTextM [str "a", str "b"] defaultDoc
    (fun d _ _ => (d, 1, none))
    (fun d i s hi => ⟨le_refl 1, by show i + 1 ≤ d.tokCount; omega, rfl⟩)).1

theorem parseManyF_tokens_isSome (po : ParseFnA)
    (hpo : ∀ (d : Document) (i : Nat) (s : StopFn),
      ((po d i s).1.tokens).isSome = d.tokens.isSome) (stop : StopFn) :
    ∀ (fuel : Nat) (d : Document) (i : Nat),
      ((parseManyF po stop fuel d i).1.tokens).isSome = d.tokens.isSome := by
  intro fuel
  induction fuel with
  | zero => intro d i; rfl
  | succ fuel ih =>
    intro d i
    unfold parseManyF
    by_cases hcond : i < d.tokCount ∧ ¬ stop d i = true
    · rw [if_pos hcond]
      rw [ih (po d i stop).1 (i + (po d i stop).2.1)]
      exact hpo d i stop
    · rw [if_neg hcond]

/-- C6: running the parse body a second time on the same session does
not re-parse — the session already holds a (non-nil) token buffer, so
the body records one validation-error diagnostic on the session and
returns a null result. -/
theorem claim_C6_single_use (lex : Str → Option Token) (po : ParseFnA)
    (lines lines2 : List Str) (conf : Document)
    (hpo : ∀ (d : Document) (i : Nat) (s : StopFn),
      ((po d i s).1.tokens).isSome = d.tokens.isSome) :
    parseSession lex po lines2 (parseSession lex po lines (freshDoc conf)).1
      = ((parseSession lex po lines (freshDoc conf)).1.addError .validation
          "parse called multiple times" (parseSession lex po lines (freshDoc conf)).1.pos
          zeroToken none, none) := by
  have hfresh : (freshDoc conf).tokens = none := rfl
  have hd1 : (parseSession lex po lines (freshDoc conf)).1
      = { (parseMany po (docTokenize lex lines (freshDoc conf)) 0 stopTop).1 with
          nodes := some (parseMany po (docTokenize lex lines (freshDoc conf)) 0 stopTop).2.2 } := by
    unfold parseSession
    rw [if_neg (by simp [hfresh])]
  have htokd : ((docTokenize lex lines (freshDoc conf)).tokens).isSome = true := by
    have h := docTokenizeLines_spec lex lines 0
      { (freshDoc conf) with tokens := some [] } [] rfl
    show ((docTokenizeLines lex lines 0 { (freshDoc conf) with tokens := some [] }).tokens).isSome = true
    rw [h.1]
    rfl
  have htok : ((parseSession lex po lines (freshDoc conf)).1.tokens).isSome = true := by
    rw [hd1]
    show ((parseMany po (docTokenize lex lines (freshDoc conf)) 0 stopTop).1.tokens).isSome = true
    unfold parseMany
    rw [parseManyF_tokens_isSome po hpo]
    exact htokd
  have hgen : ∀ (dd : Document), dd.tokens ≠ none →
      parseSession lex po lines2 dd
        = (dd.addError .validation "parse called multiple times" dd.pos zeroToken none, none) := by
    intro dd hdd
    unfold parseSession
    rw [if_pos hdd]
  exact hgen _ (Option.ne_none_iff_isSome.mpr htok)

/-- Witness for the single-use theorem with the unit-step parser. -/
theorem claim_C6_single_use_witness :
    parseSession lexTextM (fun d _ _ => (d, 1, none)) [str "b"]
        (parseSession lexTextM (fun d _ _ => (d, 1, none)) [str "a"] (freshDoc defaultDoc)).1
      = ((parseSession lexTextM (fun d _ _ => (d, 1, none)) [str "a"] (freshDoc defaultDoc)).1.addError
          .validation "parse called multiple times"
          (parseSession lexTextM (fun d _ _ => (d, 1, none)) [str "a"] (freshDoc defaultDoc)).1.pos
          zeroToken none, none) :=
  claim_C6_single_use lexTextM (fun d _ _ => (d, 1, none)) [str "a"] [str "b"] defaultDoc
    (fun _ _ _ => rfl)

theorem drop_takeWhile_length (p : Char → Bool) (l : Str) :
    l.drop (l.takeWhile p).length = l.dropWhile p := by
  induction l with
  | nil => rfl
  | cons a t ih =>
    by_cases h : p a
    · simp [List.takeWhile_cons, List.dropWhile_cons, h, ih]
    · simp [List.takeWhile_cons, List.dropWhile_cons, h]

theorem head?_dropWhile_false (p : Char → Bool) (l : Str) :
    ∀ x, (l.dropWhile p).head? = some x → p x = false := by
  induction l with
  | nil => intro x hx; exact Option.noConfusion hx
  | cons a t ih =>
    intro x hx
    by_cases h : p a
    · rw [List.dropWhile_cons_of_pos h] at hx
      exact ih x hx
    · rw [List.dropWhile_cons_of_neg h] at hx
      injection hx with hx2
      subst hx2
      exact Bool.not_eq_true _ ▸ (by simpa using h)

theorem plainTextMatch_idem (s : Str) :
    plainTextMatch (plainTextMatch s).1 = plainTextMatch s := by
  unfold plainTextMatch
  simp only
  have hall1 : ∀ a ∈ s.takeWhile isRegexSpace, isRegexSpace a :=
    fun a ha => List.mem_takeWhile_imp ha
  have hdw : s.drop (s.takeWhile isRegexSpace).length = s.dropWhile isRegexSpace :=
    drop_takeWhile_length isRegexSpace s
  have hm2nl : ((s.drop (s.takeWhile isRegexSpace).length).takeWhile (· ≠ '\n')).takeWhile
      isRegexSpace = [] := by
    rw [hdw]
    cases hhd : (s.dropWhile isRegexSpace) with
    | nil => simp
    | cons y t =>
      by_cases hy : (y ≠ '\n')
      · rw [List.takeWhile_cons_of_pos (by simpa using hy)]
        have hyf : isRegexSpace y = false := by
          apply head?_dropWhile_false isRegexSpace s
          rw [hhd]
          rfl
        rw [List.takeWhile_cons_of_neg (by simp [hyf])]
      · rw [List.takeWhile_cons_of_neg (by simpa using hy)]
        simp
  have htw : (s.takeWhile isRegexSpace ++
      (s.drop (s.takeWhile isRegexSpace).length).takeWhile (· ≠ '\n')).takeWhile isRegexSpace
      = s.takeWhile isRegexSpace := by
    rw [List.takeWhile_append_of_pos hall1, hm2nl, List.append_nil]
  have hdrop : (s.takeWhile isRegexSpace ++
      (s.drop (s.takeWhile isRegexSpace).length).takeWhile (· ≠ '\n')).drop
        (s.takeWhile isRegexSpace).length
      = (s.drop (s.takeWhile isRegexSpace).length).takeWhile (· ≠ '\n') := by
    have := List.drop_left (s.takeWhile isRegexSpace)
      ((s.drop (s.takeWhile isRegexSpace).length).takeWhile (· ≠ '\n'))
    exact this
  have hm2self : ((s.drop (s.takeWhile isRegexSpace).length).takeWhile (· ≠ '\n')).takeWhile
      (· ≠ '\n') = (s.drop (s.takeWhile isRegexSpace).length).takeWhile (· ≠ '\n') := by
    apply List.takeWhile_eq_self_iff.mpr
    intro a ha
    simpa using List.mem_takeWhile_imp ha
  rw [htw, hdrop, hm2self]

theorem coerceToken_idem (t : Token) : coerceToken (coerceToken t) = coerceToken t := by
  unfold coerceToken
  simp only [List.getD_cons_zero]
  rw [plainTextMatch_idem]

theorem dispatchKind_text (P : SubParsers) (d' : Document) (i' : Nat) (s : StopFn)
    (h : (d'.tok i').kind = "text") :
    dispatchKind P d' i' s =
      if (d'.tok i').content = [] then (d', 1, none) else P.parseParagraph d' i' s := by
  unfold dispatchKind
  rw [h]
  rfl

theorem setTok_tok_self (d : Document) (i : Nat) (t : Token) (h : i < d.tokCount) :
    (d.setTok i t).tok i = t := by
  unfold Document.setTok Document.tok Document.toks
  simp only [Option.getD_some]
  rw [List.getD_eq_getElem?_getD, List.getElem?_set_self (by simpa [Document.tokCount, Document.toks] using h)]
  rfl

theorem parseOneF_succ (P : SubParsers) (fuel : Nat) (d : Document) (i : Nat) (stop : StopFn) :
    parseOneF P (fuel + 1) d i stop =
      if (dispatchKind P d i stop).2.1 ≠ 0 then some (dispatchKind P d i stop)
      else parseOneF P fuel (coerceStep P d i stop) i stop := rfl

theorem setTok_tokCount (d : Document) (i : Nat) (t : Token) :
    (d.setTok i t).tokCount = d.tokCount := by
  unfold Document.setTok Document.tokCount Document.toks
  simp

theorem coerceStep_tok (P : SubParsers) (d : Document) (i : Nat) (stop : StopFn)
    (hi : i < d.tokCount)
    (hkeep : ∀ (d' : Document) (i' : Nat) (s : StopFn),
      (dispatchKind P d' i' s).1.tokCount = d'.tokCount) :
    (coerceStep P d i stop).tok i = coerceToken ((dispatchKind P d i stop).1.tok i) := by
  unfold coerceStep
  apply setTok_tok_self
  show i < ((dispatchKind P d i stop).1).tokCount
  rw [hkeep d i stop]
  exact hi

/-- C7: when `parseOne` meets a token no parser handles, it records one
unexpected-token diagnostic, coerces the token into a generic text
token via the plain-text pattern, retries once, and succeeds: under the
sub-parser contracts (token count preserved; a non-empty text token
consumes at least one; the paragraph parser only appends errors), the
fuel-2 run returns a step consuming at least one token, the result is
identical at any larger fuel (so at most one coercion happens and the
recursion never loops), the recorded diagnostic is in the resulting
session, and the coercion is idempotent. -/
theorem claim_C7_parseOne_fallback (P : SubParsers) (d : Document) (i : Nat) (stop : StopFn)
    (hi : i < d.tokCount)
    (hkeep : ∀ (d' : Document) (i' : Nat) (s : StopFn),
      (dispatchKind P d' i' s).1.tokCount = d'.tokCount)
    (hpp : ∀ (d' : Document) (i' : Nat) (s : StopFn), (d'.tok i').kind = "text" →
      (d'.tok i').content ≠ [] → 1 ≤ (P.parseParagraph d' i' s).2.1)
    (hmono : ∀ (d' : Document) (i' : Nat) (s : StopFn),
      ∃ tail, (P.parseParagraph d' i' s).1.errors = d'.errors ++ tail) :
    (parseOneF P 2 d i stop).isSome = true ∧
    (∀ r, parseOneF P 2 d i stop = some r →
       1 ≤ r.2.1 ∧
       (∀ fuel, parseOneF P (fuel + 2) d i stop = some r) ∧
       ((dispatchKind P d i stop).2.1 = 0 →
          newParseError .unexpectedToken "could not parse token" (dispatchKind P d i stop).1.path
            (getPositionFromToken ((dispatchKind P d i stop).1.tok i))
            ((dispatchKind P d i stop).1.tok i)
            (some ("no parser matched token kind " ++ ((dispatchKind P d i stop).1.tok i).kind))
            ∈ r.1.errors)) ∧
    (∀ t, coerceToken (coerceToken t) = coerceToken t) := by
  have hks : (coerceStep P d i stop).tok i = coerceToken ((dispatchKind P d i stop).1.tok i) :=
    coerceStep_tok P d i stop hi hkeep
  have herrs : (coerceStep P d i stop).errors
      = (dispatchKind P d i stop).1.errors ++
        [newParseError .unexpectedToken "could not parse token" (dispatchKind P d i stop).1.path
          (getPositionFromToken ((dispatchKind P d i stop).1.tok i))
          ((dispatchKind P d i stop).1.tok i)
          (some ("no parser matched token kind " ++ ((dispatchKind P d i stop).1.tok i).kind))] := rfl
  by_cases hc : (dispatchKind P d i stop).2.1 ≠ 0
  · have h2 : parseOneF P 2 d i stop = some (dispatchKind P d i stop) := by
      have e2 : parseOneF P 2 d i stop =
          (if (dispatchKind P d i stop).2.1 ≠ 0 then some (dispatchKind P d i stop)
           else parseOneF P 1 (coerceStep P d i stop) i stop) := parseOneF_succ P 1 d i stop
      rw [e2, if_pos hc]
    refine ⟨by rw [h2]; rfl, ?_, coerceToken_idem⟩
    intro r hr
    rw [h2] at hr
    injection hr with hr2
    subst hr2
    refine ⟨Nat.one_le_iff_ne_zero.mpr hc, ?_, fun h0 => absurd h0 hc⟩
    intro fuel
    have e2 : parseOneF P (fuel + 2) d i stop =
        (if (dispatchKind P d i stop).2.1 ≠ 0 then some (dispatchKind P d i stop)
         else parseOneF P (fuel + 1) (coerceStep P d i stop) i stop) :=
      parseOneF_succ P (fuel + 1) d i stop
    rw [e2, if_pos hc]
  · push_neg at hc
    have htext : ((coerceStep P d i stop).tok i).kind = "text" := by rw [hks]; rfl
    have hdisp2 : dispatchKind P (coerceStep P d i stop) i stop =
        if ((coerceStep P d i stop).tok i).content = [] then (coerceStep P d i stop, 1, none)
        else P.parseParagraph (coerceStep P d i stop) i stop :=
      dispatchKind_text P (coerceStep P d i stop) i stop htext
    have hcneg : ¬ (dispatchKind P d i stop).2.1 ≠ 0 := by simp [hc]
    by_cases hce : ((coerceStep P d i stop).tok i).content = []
    · have hd2 : dispatchKind P (coerceStep P d i stop) i stop
          = (coerceStep P d i stop, 1, none) := by rw [hdisp2, if_pos hce]
      have h2 : parseOneF P 2 d i stop = some (coerceStep P d i stop, 1, none) := by
        have e2 : parseOneF P 2 d i stop =
            (if (dispatchKind P d i stop).2.1 ≠ 0 then some (dispatchKind P d i stop)
             else parseOneF P 1 (coerceStep P d i stop) i stop) := parseOneF_succ P 1 d i stop
        have e1 : parseOneF P 1 (coerceStep P d i stop) i stop =
            (if (dispatchKind P (coerceStep P d i stop) i stop).2.1 ≠ 0 then
               some (dispatchKind P (coerceStep P d i stop) i stop)
             else parseOneF P 0 (coerceStep P (coerceStep P d i stop) i stop) i stop) :=
          parseOneF_succ P 0 (coerceStep P d i stop) i stop
        rw [e2, if_neg hcneg, e1, hd2]
        rfl
      refine ⟨by rw [h2]; rfl, ?_, coerceToken_idem⟩
      intro r hr
      rw [h2] at hr
      injection hr with hr2
      subst hr2
      refine ⟨le_refl 1, ?_, ?_⟩
      · intro fuel
        have e2 : parseOneF P (fuel + 2) d i stop =
            (if (dispatchKind P d i stop).2.1 ≠ 0 then some (dispatchKind P d i stop)
             else parseOneF P (fuel + 1) (coerceStep P d i stop) i stop) :=
          parseOneF_succ P (fuel + 1) d i stop
        have e1 : parseOneF P (fuel + 1) (coerceStep P d i stop) i stop =
            (if (dispatchKind P (coerceStep P d i stop) i stop).2.1 ≠ 0 then
               some (dispatchKind P (coerceStep P d i stop) i stop)
             else parseOneF P fuel (coerceStep P (coerceStep P d i stop) i stop) i stop) :=
          parseOneF_succ P fuel (coerceStep P d i stop) i stop
        rw [e2, if_neg hcneg, e1, hd2]
        rfl
      · intro _
        show _ ∈ (coerceStep P d i stop).errors
        rw [herrs]
        exact List.mem_append_right _ (List.mem_singleton.mpr rfl)
    · have hppc : 1 ≤ (P.parseParagraph (coerceStep P d i stop) i stop).2.1 :=
        hpp (coerceStep P d i stop) i stop htext hce
      have hd2 : dispatchKind P (coerceStep P d i stop) i stop
          = P.parseParagraph (coerceStep P d i stop) i stop := by rw [hdisp2, if_neg hce]
      have hne : (P.parseParagraph (coerceStep P d i stop) i stop).2.1 ≠ 0 := by omega
      have h2 : parseOneF P 2 d i stop
          = some (P.parseParagraph (coerceStep P d i stop) i stop) := by
        have e2 : parseOneF P 2 d i stop =
            (if (dispatchKind P d i stop).2.1 ≠ 0 then some (dispatchKind P d i stop)
             else parseOneF P 1 (coerceStep P d i stop) i stop) := parseOneF_succ P 1 d i stop
        have e1 : parseOneF P 1 (coerceStep P d i stop) i stop =
            (if (dispatchKind P (coerceStep P d i stop) i stop).2.1 ≠ 0 then
               some (dispatchKind P (coerceStep P d i stop) i stop)
             else parseOneF P 0 (coerceStep P (coerceStep P d i stop) i stop) i stop) :=
          parseOneF_succ P 0 (coerceStep P d i stop) i stop
        rw [e2, if_neg hcneg, e1, hd2, if_pos hne]
      refine ⟨by rw [h2]; rfl, ?_, coerceToken_idem⟩
      intro r hr
      rw [h2] at hr
      injection hr with hr2
      subst hr2
      refine ⟨hppc, ?_, ?_⟩
      · intro fuel
        have e2 : parseOneF P (fuel + 2) d i stop =
            (if (dispatchKind P d i stop).2.1 ≠ 0 then some (dispatchKind P d i stop)
             else parseOneF P (fuel + 1) (coerceStep P d i stop) i stop) :=
          parseOneF_succ P (fuel + 1) d i stop
        have e1 : parseOneF P (fuel + 1) (coerceStep P d i stop) i stop =
            (if (dispatchKind P (coerceStep P d i stop) i stop).2.1 ≠ 0 then
               some (dispatchKind P (coerceStep P d i stop) i stop)
             else parseOneF P fuel (coerceStep P (coerceStep P d i stop) i stop) i stop) :=
          parseOneF_succ P fuel (coerceStep P d i stop) i stop
        rw [e2, if_neg hcneg, e1, hd2, if_pos hne]
      · intro _
        obtain ⟨tail, htail⟩ := hmono (coerceStep P d i stop) i stop
        show _ ∈ (P.parseParagraph (coerceStep P d i stop) i stop).1.errors
        rw [htail, herrs]
        exact List.mem_append_left _ (List.mem_append_right _ (List.mem_singleton.mpr rfl))

/-- Witness for the fallback theorem on a one-token document whose
token kind is unknown (`nil`), with unit-step sub-parsers. -/
theorem claim_C7_parseOne_fallback_witness :
    (parseOneF
      { parseList := fun dd _ _ => (dd, 1, none), parseTable := fun dd _ _ => (dd, 1, none),
        parseBlock := fun dd _ _ => (dd, 1, none), parseLatexBlock := fun dd _ _ => (dd, 1, none),
        parseResult := fun dd _ _ => (dd, 1, none), parseDrawer := fun dd _ _ => (dd, 1, none),
        parseParagraph := fun dd _ _ => (dd, 1, none), parseExample := fun dd _ _ => (dd, 1, none),
        parseHorizontalRule := fun dd _ _ => (dd, 1, none), parseComment := fun dd _ _ => (dd, 1, none),
        parseKeyword := fun dd _ _ => (dd, 1, none), parseHeadline := fun dd _ _ => (dd, 1, none),
        parseFootnoteDefinition := fun dd _ _ => (dd, 1, none) }
      2 { defaultDoc with tokens := some [{ nilToken with submatches := [str "x"] }] } 0
      (fun _ _ => false)).isSome = true :=
  (claim_C7_parseOne_fallback _
    { defaultDoc with tokens := some [{ nilToken with submatches := [str "x"] }] } 0
    (fun _ _ => false) (by decide)
    (fun d' i' s => by
      unfold dispatchKind
      split <;> first
        | rfl
        | (split <;> rfl))
    (fun d' i' s _ _ => le_refl 1)
    (fun d' i' s => ⟨[], by simp⟩)).1

theorem nlCount_self (s : Str) (i : Nat) : nlCount s i i = 0 := by
  unfold nlCount slice
  rw [List.drop_eq_nil_of_le (by simp [List.length_take])]
  rfl

theorem getD_eq_getElem_of_lt (s : Str) (j : Nat) (h : j < s.length) :
    s.getD j ' ' = s[j] := by
  rw [List.getD_eq_getElem?_getD, List.getElem?_eq_getElem h]
  rfl

theorem drop_eq_getD_cons (l : Str) (n : Nat) (h : n < l.length) :
    l.drop n = l.getD n ' ' :: l.drop (n + 1) := by
  rw [List.drop_eq_getElem_cons h, List.getD_eq_getElem?_getD, List.getElem?_eq_getElem h]
  rfl

theorem nlCount_succ_expand (s : Str) (i j : Nat) (hi : i < s.length) (hij : i < j) :
    nlCount s i j = (if s.getD i ' ' = '\n' then 1 else 0) + nlCount s (i + 1) j := by
  have hlen : i < (s.take j).length := by
    simp [List.length_take]
    omega
  have hgd : (s.take j).getD i ' ' = s.getD i ' ' := by
    rw [List.getD_eq_getElem?_getD, List.getD_eq_getElem?_getD, List.getElem?_take_of_lt hij]
  unfold nlCount slice
  rw [drop_eq_getD_cons _ i hlen, List.filter_cons, hgd]
  by_cases hnl : s.getD i ' ' = '\n'
  · have hb : (s.getD i ' ' == '\n') = true := by
      rw [hnl]
      rfl
    rw [hb, if_pos hnl]
    simp [Nat.add_comm]
  · have hb : (s.getD i ' ' == '\n') = false := by
      simpa using hnl
    rw [hb, if_neg hnl]
    simp

theorem emphScanF_some_ge (s : Str) (marker : Char) (start : Nat) (mx : Int) :
    ∀ (fuel i cnt : Nat) (j : Nat), emphScanF s marker start mx fuel i cnt = some j →
      i ≤ j ∧ j ≠ start + 1 := by
  intro fuel
  induction fuel with
  | zero => intro i cnt j h; exact absurd h (by simp [emphScanF])
  | succ fuel ih =>
    intro i cnt j h
    unfold emphScanF at h
    by_cases hi : i < s.length
    · rw [if_pos hi] at h
      by_cases hcnt : (cnt : Int) ≤ mx
      · rw [if_pos hcnt] at h
        by_cases hfound : (s.getD i ' ' = marker ∧ i ≠ start + 1 ∧
            hasValidPostAndBorderChars s i = true)
        · rw [if_pos hfound] at h
          injection h with h2
          subst h2
          exact ⟨le_refl i, hfound.2.1⟩
        · rw [if_neg hfound] at h
          have := ih (i + 1) _ j h
          exact ⟨by omega, this.2⟩
      · rw [if_neg hcnt] at h
        exact Option.noConfusion h
    · rw [if_neg hi] at h
      exact Option.noConfusion h

theorem emphScanF_isSome_iff (s : Str) (marker : Char) (start : Nat) (mx : Int) :
    ∀ (fuel i cnt : Nat), s.length ≤ i + fuel →
      ((emphScanF s marker start mx fuel i cnt).isSome = true ↔
        ∃ j, i ≤ j ∧ j < s.length ∧ s.getD j ' ' = marker ∧ j ≠ start + 1 ∧
          hasValidPostAndBorderChars s j = true ∧ ((cnt : Int) + (nlCount s i j : Int) ≤ mx)) := by
  intro fuel
  induction fuel with
  | zero =>
    intro i cnt hle
    constructor
    · intro h
      exact absurd h (by simp [emphScanF])
    · rintro ⟨j, hij, hjlen, -⟩
      omega
  | succ fuel ih =>
    intro i cnt hle
    unfold emphScanF
    by_cases hi : i < s.length
    · rw [if_pos hi]
      by_cases hcnt : (cnt : Int) ≤ mx
      · rw [if_pos hcnt]
        by_cases hfound : (s.getD i ' ' = marker ∧ i ≠ start + 1 ∧
            hasValidPostAndBorderChars s i = true)
        · rw [if_pos hfound]
          simp only [Option.isSome_some, true_iff]
          exact ⟨i, le_refl i, hi, hfound.1, hfound.2.1, hfound.2.2, by
            rw [nlCount_self]
            simpa using hcnt⟩
        · rw [if_neg hfound]
          by_cases hnl : s.getD i ' ' = '\n'
          · rw [if_pos hnl, ih (i + 1) (cnt + 1) (by omega)]
            constructor
            · rintro ⟨j, hij, hjlen, hjm, hjne, hjpost, hjcnt⟩
              refine ⟨j, by omega, hjlen, hjm, hjne, hjpost, ?_⟩
              have hexp := nlCount_succ_expand s i j hi (by omega)
              rw [if_pos hnl] at hexp
              rw [hexp]
              push_cast at hjcnt ⊢
              omega
            · rintro ⟨j, hij, hjlen, hjm, hjne, hjpost, hjcnt⟩
              have hjne2 : j ≠ i := by
                intro hji
                subst hji
                exact hfound ⟨hjm, hjne, hjpost⟩
              refine ⟨j, by omega, hjlen, hjm, hjne, hjpost, ?_⟩
              have hexp := nlCount_succ_expand s i j hi (by omega)
              rw [if_pos hnl] at hexp
              rw [hexp] at hjcnt
              push_cast at hjcnt ⊢
              omega
          · rw [if_neg hnl, ih (i + 1) cnt (by omega)]
            constructor
            · rintro ⟨j, hij, hjlen, hjm, hjne, hjpost, hjcnt⟩
              refine ⟨j, by omega, hjlen, hjm, hjne, hjpost, ?_⟩
              have hexp := nlCount_succ_expand s i j hi (by omega)
              rw [if_neg hnl] at hexp
              rw [hexp]
              push_cast at hjcnt ⊢
              omega
            · rintro ⟨j, hij, hjlen, hjm, hjne, hjpost, hjcnt⟩
              have hjne2 : j ≠ i := by
                intro hji
                subst hji
                exact hfound ⟨hjm, hjne, hjpost⟩
              refine ⟨j, by omega, hjlen, hjm, hjne, hjpost, ?_⟩
              have hexp := nlCount_succ_expand s i j hi (by omega)
              rw [if_neg hnl] at hexp
              rw [hexp] at hjcnt
              push_cast at hjcnt ⊢
              omega
      · rw [if_neg hcnt]
        simp only [Option.isSome_none, Bool.false_eq_true, false_iff]
        rintro ⟨j, hij, hjlen, hjm, hjne, hjpost, hjcnt⟩
        have hge : (0 : Int) ≤ (nlCount s i j : Int) := Int.ofNat_nonneg _
        omega
    · rw [if_neg hi]
      simp only [Option.isSome_none, Bool.false_eq_true, false_iff]
      rintro ⟨j, hij, hjlen, -⟩
      omega

theorem parseEmphasisG_ne_zero_iff (d : Document) (pi : InlineFn) (input : Str) (start : Nat)
    (isRaw : Bool) (sl sc : Nat) :
    (parseEmphasisG d pi input start isRaw sl sc).1 ≠ 0 ↔
      emphasisSpecOK input start d.maxEmphasisNewLines := by
  unfold parseEmphasisG
  by_cases hpre : hasValidPreAndBorderChars input start = true
  · rw [if_neg (by simp [hpre])]
    have hprs := (Bool.and_eq_true _ _).mp hpre
    cases hscan : emphScanF input (input.getD start ' ') start d.maxEmphasisNewLines
        (input.length + 1) (start + 1) 0 with
    | some j =>
      simp only
      have hge := emphScanF_some_ge input (input.getD start ' ') start d.maxEmphasisNewLines
        (input.length + 1) (start + 1) 0 j hscan
      have hiff := emphScanF_isSome_iff input (input.getD start ' ') start d.maxEmphasisNewLines
        (input.length + 1) (start + 1) 0 (by omega)
      rw [hscan] at hiff
      have hex := hiff.mp rfl
      constructor
      · intro _
        obtain ⟨j2, h1, h2, h3, h4, h5, h6⟩ := hex
        have hps := (Bool.and_eq_true _ _).mp h5
        refine ⟨hprs.2, hprs.1, j2, by omega, h2, h3, hps.2, hps.1, ?_⟩
        simpa using h6
      · intro _
        show j + 1 - start ≠ 0
        omega
    | none =>
      simp only
      constructor
      · intro h0
        exact absurd rfl h0
      · rintro ⟨hpre2, hborder2, j, hj1, hj2, hj3, hj4, hj5, hj6⟩
        have hiff := emphScanF_isSome_iff input (input.getD start ' ') start d.maxEmphasisNewLines
          (input.length + 1) (start + 1) 0 (by omega)
        rw [hscan] at hiff
        have : (none : Option Nat).isSome = true := by
          rw [hiff]
          exact ⟨j, by omega, hj2, hj3, by omega,
            (Bool.and_eq_true _ _).mpr ⟨hj5, hj4⟩, by simpa using hj6⟩
        exact Bool.noConfusion this
  · rw [if_pos (by simpa using hpre)]
    simp only
    constructor
    · intro h0
      exact absurd rfl h0
    · rintro ⟨hpre2, hborder2, -⟩
      exact (hpre ((Bool.and_eq_true _ _).mpr ⟨hborder2, hpre2⟩)).elim

/-- C4 amended: the emphasis sub-scanner succeeds exactly when the
pre-character before the marker is valid, the character after the
marker is non-space, and a closing marker occurrence strictly beyond
`start+1` exists with non-space preceding character and valid
post-character, spanning at most `MaxEmphasisNewLines` newlines;
exceeding the bound (or any other failure) yields consumed 0 with no
node rather than an error.  `a*b*c` never matches (letters adjacent),
and `*bold*` matches when the character before the opening marker is a
double quote, as in `"*bold*"` — but not when it is a letter, as in
`"quoted*bold*text"` (see the counterexample). -/
theorem claim_C4_emphasis :
    (∀ (d : Document) (fuel : Nat) (input : Str) (start : Nat) (isRaw : Bool) (sl sc : Nat),
       start < input.length →
       input.getD start ' ' ∈ (['*', '/', '+', '=', '~', '_'] : List Char) →
       ((parseEmphasisWithPos d fuel input start isRaw sl sc).1 ≠ 0 ↔
         emphasisSpecOK input start d.maxEmphasisNewLines)) ∧
    (parseEmphasisWithPos defaultDoc 9 (str "\"*bold*\"") 1 false 0 0).1 ≠ 0 ∧
    parseEmphasisWithPos defaultDoc 6 (str "a*b*c") 1 false 0 0 = (0, none) ∧
    parseEmphasisWithPos defaultDoc 6 (str "a*b*c") 3 false 0 0 = (0, none) := by
  refine ⟨?_, by decide, rfl, rfl⟩
  intro d fuel input start isRaw sl sc _ _
  exact parseEmphasisG_ne_zero_iff d (parseInlineWithPos d fuel) input start isRaw sl sc

/-- C4 counterexample: in the exact text `"quoted*bold*text"` the
character before either `*` is a letter, which is not a valid
pre-character, so the emphasis sub-scanner fails at both markers —
`*bold*` does not match inside this text, contrary to the claim. -/
theorem claim_C4_emphasis_counterexample :
    parseEmphasisWithPos defaultDoc 19 (str "\"quoted*bold*text\"") 7 false 0 0 = (0, none) ∧
    parseEmphasisWithPos defaultDoc 19 (str "\"quoted*bold*text\"") 12 false 0 0 = (0, none) :=
  ⟨rfl, rfl⟩

/-- Witness for the emphasis theorem at the concrete input `"*bold*"`,
marker index 1. -/
theorem claim_C4_emphasis_witness :
    ((parseEmphasisWithPos defaultDoc 9 (str "\"*bold*\"") 1 false 0 0).1 ≠ 0 ↔
      emphasisSpecOK (str "\"*bold*\"") 1 defaultDoc.maxEmphasisNewLines) :=
  claim_C4_emphasis.1 defaultDoc 9 (str "\"*bold*\"") 1 false 0 0 (by decide) (by decide)
end GoOrg
